import Mathlib

/-!
# Verification of the Raja-Mantri game server (src/server/server.js)

Shallow embedding of the room / game-state logic of the server.  JavaScript
`Map`s and plain objects (used as string-keyed dictionaries) preserve
insertion order and update values in place; we model both as association
lists with `alistSet` (update-in-place-or-append), `alistGet` (first match)
and `alistRemove`.  Randomness (the Fisher-Yates shuffle of the four role
labels and the room-code generator) is externalised as a function argument,
so every operation is a pure function of the state plus the random draws.
-/

/-- Association-list lookup: first entry with the given key (JS `map.get` /
`obj[k]`, which is `undefined` i.e. `none` when absent). -/
def alistGet {κ β : Type} [DecidableEq κ] (l : List (κ × β)) (k : κ) : Option β :=
  (l.find? (fun e => e.1 = k)).map (fun e => e.2)

/-- Association-list update: JS `map.set(k, v)` / `obj[k] = v` — replaces the
value at the existing position if the key is present, otherwise appends. -/
def alistSet {κ β : Type} [DecidableEq κ] : List (κ × β) → κ → β → List (κ × β)
  | [], k, v => [(k, v)]
  | e :: rest, k, v =>
      if e.1 = k then (k, v) :: rest else e :: alistSet rest k v

/-- Association-list removal: JS `map.delete(k)` / `delete obj[k]`. -/
def alistRemove {κ β : Type} [DecidableEq κ] (l : List (κ × β)) (k : κ) : List (κ × β) :=
  l.filter (fun e => decide (e.1 ≠ k))

/-- The key list of an association list, in insertion order. -/
def alistKeys {κ β : Type} (l : List (κ × β)) : List κ :=
  l.map Prod.fst

section AListLemmas

variable {κ β : Type} [DecidableEq κ]

@[simp] theorem alistGet_nil (k : κ) : alistGet ([] : List (κ × β)) k = none := rfl

theorem alistGet_cons (e : κ × β) (l : List (κ × β)) (k : κ) :
    alistGet (e :: l) k = if e.1 = k then some e.2 else alistGet l k := by
  by_cases h : e.1 = k <;> simp [alistGet, List.find?, h]

@[simp] theorem alistGet_set_self (l : List (κ × β)) (k : κ) (v : β) :
    alistGet (alistSet l k v) k = some v := by
  induction l with
  | nil => simp [alistSet, alistGet_cons]
  | cons e rest ih =>
      by_cases h : e.1 = k
      · simp [alistSet, h, alistGet_cons]
      · simp [alistSet, h, alistGet_cons, ih]

theorem alistGet_set_ne (l : List (κ × β)) (k k' : κ) (v : β) (h : k' ≠ k) :
    alistGet (alistSet l k v) k' = alistGet l k' := by
  have hk : k ≠ k' := fun hh => h hh.symm
  induction l with
  | nil => simp [alistSet, alistGet_cons, hk]
  | cons e rest ih =>
      by_cases he : e.1 = k
      · subst he
        simp [alistSet, alistGet_cons, hk]
      · simp [alistSet, he, alistGet_cons, ih]

theorem mem_alistKeys_set (l : List (κ × β)) (k k' : κ) (v : β) :
    k' ∈ alistKeys (alistSet l k v) ↔ k' ∈ alistKeys l ∨ k' = k := by
  induction l with
  | nil => simp [alistSet, alistKeys]
  | cons e rest ih =>
      by_cases he : e.1 = k
      · subst he
        simp [alistSet, alistKeys]
        tauto
      · simp [alistSet, he, alistKeys] at *
        tauto

theorem alistKeys_set_subset (l : List (κ × β)) (k : κ) (v : β) :
    alistKeys (alistSet l k v) ⊆ k :: alistKeys l := by
  intro x hx
  rcases (mem_alistKeys_set l k x v).1 hx with h | h
  · exact List.mem_cons_of_mem _ h
  · simp [h]

theorem alistKeys_set_nodup (l : List (κ × β)) (k : κ) (v : β)
    (h : (alistKeys l).Nodup) : (alistKeys (alistSet l k v)).Nodup := by
  induction l with
  | nil => simp [alistSet, alistKeys]
  | cons e rest ih =>
      by_cases he : e.1 = k
      · subst he
        simpa [alistSet, alistKeys] using h
      · simp only [alistKeys, List.map_cons, List.nodup_cons] at h
        have := ih h.2
        simp only [alistSet, he, if_false, alistKeys, List.map_cons, List.nodup_cons]
        refine ⟨fun hc => ?_, this⟩
        rcases (mem_alistKeys_set rest k e.1 v).1 hc with hm | hm
        · exact h.1 (by simpa [alistKeys] using hm)
        · exact he hm

theorem alistRemove_cons (e : κ × β) (l : List (κ × β)) (k : κ) :
    alistRemove (e :: l) k =
      if e.1 = k then alistRemove l k else e :: alistRemove l k := by
  by_cases h : e.1 = k <;> simp [alistRemove, h]

@[simp] theorem alistGet_remove_self (l : List (κ × β)) (k : κ) :
    alistGet (alistRemove l k) k = none := by
  induction l with
  | nil => rfl
  | cons e rest ih =>
      rw [alistRemove_cons]
      by_cases h : e.1 = k
      · simpa [h] using ih
      · simp [h, alistGet_cons, ih]

theorem alistGet_remove_ne (l : List (κ × β)) (k k' : κ) (h : k' ≠ k) :
    alistGet (alistRemove l k) k' = alistGet l k' := by
  induction l with
  | nil => rfl
  | cons e rest ih =>
      rw [alistRemove_cons]
      by_cases he : e.1 = k
      · have hne : e.1 ≠ k' := fun hh => h (hh.symm.trans he)
        simp [he, alistGet_cons, hne, ih, Ne.symm h]
      · simp [he, alistGet_cons, ih]

theorem mem_alistKeys_remove (l : List (κ × β)) (k k' : κ) :
    k' ∈ alistKeys (alistRemove l k) ↔ k' ∈ alistKeys l ∧ k' ≠ k := by
  simp only [alistKeys, alistRemove, List.mem_map]
  constructor
  · rintro ⟨e, he, rfl⟩
    rw [List.mem_filter] at he
    exact ⟨⟨e, he.1, rfl⟩, by simpa using he.2⟩
  · rintro ⟨⟨e, he, rfl⟩, hne⟩
    exact ⟨e, List.mem_filter.2 ⟨he, by simpa using hne⟩, rfl⟩

theorem alistGet_eq_none_iff (l : List (κ × β)) (k : κ) :
    alistGet l k = none ↔ k ∉ alistKeys l := by
  induction l with
  | nil => simp [alistKeys]
  | cons e rest ih =>
      by_cases h : e.1 = k
      · subst h
        simp [alistGet_cons, alistKeys]
      · simp only [alistGet_cons, h, if_false, alistKeys, List.map_cons, List.mem_cons, ih,
          alistKeys]
        constructor
        · intro hn hc
          rcases hc with hc | hc
          · exact h hc.symm
          · exact hn hc
        · intro hn hc
          exact hn (Or.inr hc)

theorem alistGet_isSome_iff (l : List (κ × β)) (k : κ) :
    (alistGet l k).isSome ↔ k ∈ alistKeys l := by
  rw [← not_iff_not]
  simp [Option.isSome_iff_exists, ← alistGet_eq_none_iff l k, Option.eq_none_iff_forall_not_mem]

theorem alistGet_eq_some_of_mem (l : List (κ × β)) (k : κ) (v : β)
    (hnd : (alistKeys l).Nodup) (hm : (k, v) ∈ l) : alistGet l k = some v := by
  induction l with
  | nil => simp at hm
  | cons e rest ih =>
      simp only [alistKeys, List.map_cons, List.nodup_cons] at hnd
      rcases List.mem_cons.1 hm with h | h
      · subst h
        simp [alistGet_cons]
      · have hne : e.1 ≠ k := by
          intro hh
          exact hnd.1 (hh ▸ (List.mem_map.2 ⟨(k, v), h, rfl⟩))
        simp [alistGet_cons, hne, ih hnd.2 h]

theorem mem_of_alistGet_eq_some (l : List (κ × β)) (k : κ) (v : β)
    (h : alistGet l k = some v) : (k, v) ∈ l := by
  induction l with
  | nil => simp [alistGet] at h
  | cons e rest ih =>
      rw [alistGet_cons] at h
      by_cases he : e.1 = k
      · simp only [he, if_true, Option.some.injEq] at h
        rcases e with ⟨ek, ev⟩
        simp only at he h
        subst he
        subst h
        exact List.mem_cons_self _ _
      · simp only [he, if_false] at h
        exact List.mem_cons_of_mem _ (ih h)

end AListLemmas

/-!
## Game data model (src/server/server.js lines 26-90)
-/

/-- The four characters of `CHARACTERS` (server.js lines 30-35). -/
inductive Role : Type
  | Raja
  | Mantri
  | Chor
  | Sipahi
deriving DecidableEq, Repr

/-- `CHARACTERS[...].points` (server.js lines 30-35). -/
def Role.points : Role → Int
  | .Raja => 2000
  | .Mantri => 900
  | .Chor => 0
  | .Sipahi => 700

/-- `room.gameState.status`: the string tag `waiting` / `playing` / `finished`. -/
inductive Status : Type
  | waiting
  | playing
  | finished
deriving DecidableEq, Repr

/-- A member entry of `room.players` (server.js lines 79-85, 213-219). -/
structure Player : Type where
  id : String
  name : String
  avatar : String
  isHost : Bool
  isReady : Bool
deriving DecidableEq, Repr

/-- The round-result record built by `calculateRoundResults` (lines 114-120). -/
structure RoundResult : Type where
  sipahiId : Option String
  chorId : Option String
  suspectedPlayerId : String
  isCorrectGuess : Bool
  pointChanges : List (String × Int)
deriving DecidableEq, Repr

/-- `room.gameState` (server.js lines 61-71).  `sipahiId`, `chorId` and
`currentGuess` are `null`-able ids. -/
structure GameState : Type where
  status : Status
  currentRound : Nat
  totalRounds : Nat
  characters : List (String × Role)
  scores : List (String × Int)
  sipahiId : Option String
  chorId : Option String
  currentGuess : Option String
  roundResults : Option RoundResult
deriving DecidableEq, Repr

/-- `room.settings` (server.js lines 72-75). -/
structure Settings : Type where
  maxPlayers : Nat
  rounds : Nat
deriving DecidableEq, Repr

/-- A room object (server.js lines 57-76). -/
structure Room : Type where
  code : String
  hostId : String
  players : List (String × Player)
  gameState : GameState
  settings : Settings
deriving DecidableEq, Repr

/-- The process-wide `rooms` map (server.js line 26), room code to Room. -/
abbrev Registry := List (String × Room)

/-- JS truthiness of `v || dflt` for an optional number: `0`, `null` and
`undefined` all fall back to the default (used for `data.rounds || 5`). -/
def jsOrNat (v : Option Nat) (dflt : Nat) : Nat :=
  match v with
  | none => dflt
  | some n => if n = 0 then dflt else n

/-- JS property-key coercion for a possibly-`null` id: `obj[null]` reads and
writes the string key `"null"`. -/
def keyOf : Option String → String
  | some s => s
  | none => "null"

/-!
## Fisher-Yates shuffle (server.js lines 42-49)

`shuffleArray` walks `i` from `n-1` down to `1` and swaps index `i` with a
random index `j = Math.floor(Math.random() * (i + 1)) ∈ [0, i]`.  The random
draws are externalised as `rand : Nat → Nat`, indexed by the loop variable
`i`; reducing modulo `i + 1` captures exactly the range of the JS draw.
-/

/-- Simultaneous read-then-write of positions `i` and `j`
(`[a[i], a[j]] = [a[j], a[i]]`); out-of-range indices leave the list as is
(never hit for in-range `i`, `j`). -/
def swapAt {α : Type} (l : List α) (i j : Nat) : List α :=
  match l.get? i, l.get? j with
  | some a, some b => (l.set i b).set j a
  | _, _ => l

/-- The descending loop of `shuffleArray`: `shuffleGo rand i l` performs the
swaps for indices `i, i-1, ..., 1`. -/
def shuffleGo {α : Type} (rand : Nat → Nat) : Nat → List α → List α
  | 0, l => l
  | i + 1, l => shuffleGo rand i (swapAt l (i + 1) (rand (i + 1) % (i + 2)))

/-- `shuffleArray(array)` (server.js lines 42-49). -/
def shuffleArray {α : Type} (rand : Nat → Nat) (array : List α) : List α :=
  shuffleGo rand (array.length - 1) array

/-!
## Role assignment (server.js lines 92-107)
-/

/-- The literal `['Raja', 'Mantri', 'Chor', 'Sipahi']` of `assignCharacters`. -/
def roleList : List Role :=
  [Role.Raja, Role.Mantri, Role.Chor, Role.Sipahi]

/-- `shuffledCharacters[index] || characters[index % characters.length]`
(server.js line 98): the shuffled label at `index`, falling back to the base
list cyclically when `index` is out of range (role strings are always truthy,
so `||` only fires on `undefined`; the inner default is unreachable because
`index % 4 < 4`). -/
def charAt (shuffled : List Role) (index : Nat) : Role :=
  match shuffled.get? index with
  | some c => c
  | none => ((roleList.get? (index % roleList.length)).getD Role.Raja)

/-- The body of the `playerIds.forEach((playerId, index) => ...)` loop of
`assignCharacters` (server.js lines 97-106), recursing over the remaining
player ids and carrying the running index. -/
def assignLoop (shuffled : List Role) : Nat → List String → GameState → GameState
  | _, [], gs => gs
  | index, playerId :: rest, gs =>
      let character := charAt shuffled index
      let gs1 := { gs with characters := alistSet gs.characters playerId character }
      let gs2 :=
        if character = Role.Sipahi then { gs1 with sipahiId := some playerId }
        else if character = Role.Chor then { gs1 with chorId := some playerId }
        else gs1
      assignLoop shuffled (index + 1) rest gs2

/-- `assignCharacters(room)` (server.js lines 92-107), with the shuffle's
random draws passed in as `rand`. -/
def assignCharacters (rand : Nat → Nat) (room : Room) : Room :=
  let playerIds := alistKeys room.players
  let shuffledCharacters := shuffleArray rand roleList
  { room with gameState := assignLoop shuffledCharacters 0 playerIds room.gameState }

/-!
## Round-result computation (server.js lines 109-152)
-/

/-- The `Object.entries(room.gameState.characters).forEach` pass awarding
Raja and Mantri their base points (server.js lines 138-144). -/
def rajaMantriPass (chars : List (String × Role)) (pc : List (String × Int)) :
    List (String × Int) :=
  chars.foldl
    (fun pc e =>
      if e.2 = Role.Raja then alistSet pc e.1 (Role.points Role.Raja)
      else if e.2 = Role.Mantri then alistSet pc e.1 (Role.points Role.Mantri)
      else pc)
    pc

/-- The `Object.entries(results.pointChanges).forEach` pass adding each delta
into the cumulative scores (`scores[id] = (scores[id] || 0) + points`,
server.js lines 146-149). -/
def applyPointChanges (pc : List (String × Int)) (scores : List (String × Int)) :
    List (String × Int) :=
  pc.foldl (fun sc e => alistSet sc e.1 ((alistGet sc e.1).getD 0 + e.2)) scores

/-- `calculateRoundResults(room, suspectedPlayerId)` (server.js lines
109-152): builds the result record and increments the scores in place,
returning the mutated room and the record. -/
def calculateRoundResults (room : Room) (suspectedPlayerId : String) :
    Room × RoundResult :=
  let sipahiId := room.gameState.sipahiId
  let chorId := room.gameState.chorId
  let isCorrectGuess : Bool := chorId = some suspectedPlayerId
  let pc0 : List (String × Int) := (alistKeys room.players).map (fun pid => (pid, 0))
  let pc1 :=
    if isCorrectGuess then
      alistSet (alistSet pc0 (keyOf sipahiId) (Role.points Role.Sipahi))
        (keyOf chorId) (Role.points Role.Chor)
    else
      alistSet (alistSet pc0 (keyOf sipahiId) (Role.points Role.Chor))
        (keyOf chorId) (Role.points Role.Sipahi)
  let pc2 := rajaMantriPass room.gameState.characters pc1
  let newScores := applyPointChanges pc2 room.gameState.scores
  let results : RoundResult :=
    { sipahiId := sipahiId, chorId := chorId,
      suspectedPlayerId := suspectedPlayerId,
      isCorrectGuess := isCorrectGuess, pointChanges := pc2 }
  ({ room with gameState := { room.gameState with scores := newScores } }, results)

/-!
## Room creation (server.js lines 51-90, 165-183)
-/

/-- `data` of `create-room` (server.js lines 165, 64, 74): name, avatar and
the optional requested round count. -/
structure HostData : Type where
  name : String
  avatar : String
  rounds : Option Nat
deriving DecidableEq, Repr

/-- The `do { roomCode = generateRoomCode() } while (rooms.has(roomCode))`
loop (server.js lines 52-55): sample codes `gen i, gen (i+1), ...` until one
is free of the registry; `fuel` bounds the search (the JS loop would spin
forever if every sampled code were taken). -/
def findFreeCode (rooms : Registry) (gen : Nat → String) : Nat → Nat → Option String
  | _, 0 => none
  | i, fuel + 1 =>
      if (alistGet rooms (gen i)).isSome then findFreeCode rooms gen (i + 1) fuel
      else some (gen i)

/-- `createRoom(hostId, hostData)` (server.js lines 51-90): returns the
extended registry and the new room, or `none` when the code search runs out
of fuel (the JS loop not terminating). -/
def createRoom (rooms : Registry) (hostId : String) (hostData : HostData)
    (gen : Nat → String) (fuel : Nat) : Option (Registry × Room) :=
  match findFreeCode rooms gen 0 fuel with
  | none => none
  | some roomCode =>
      let room : Room :=
        { code := roomCode
          hostId := hostId
          players := [(hostId,
            { id := hostId, name := hostData.name, avatar := hostData.avatar,
              isHost := true, isReady := true })]
          gameState :=
            { status := Status.waiting, currentRound := 1,
              totalRounds := jsOrNat hostData.rounds 5,
              characters := [], scores := [(hostId, 0)],
              sipahiId := none, chorId := none,
              currentGuess := none, roundResults := none }
          settings := { maxPlayers := 4, rounds := jsOrNat hostData.rounds 5 } }
      some (alistSet rooms roomCode room, room)

/-!
## Socket handlers (server.js lines 186-412)

Each handler returns the new registry together with the error message the
caller would receive (`socket.emit('error', ...)`), `none` on success.  The
JS handlers mutate the room object held in the registry in place; the
functional model writes the updated room back under its code.
-/

/-- The `join-room` handler (server.js lines 186-243). -/
def handleJoinRoom (rooms : Registry) (callerId roomCode name avatar : String) :
    Registry × Option String :=
  match alistGet rooms roomCode with
  | none => (rooms, some "Room not found")
  | some room =>
      if room.players.length ≥ room.settings.maxPlayers then
        (rooms, some "Room is full")
      else if room.gameState.status = Status.playing then
        (rooms, some "Game already in progress")
      else if (room.players.map Prod.snd).any (fun p => p.name = name) then
        (rooms, some "Name already taken")
      else
        let room' :=
          { room with
            players := alistSet room.players callerId
              { id := callerId, name := name, avatar := avatar,
                isHost := false, isReady := true }
            gameState :=
              { room.gameState with scores := alistSet room.gameState.scores callerId 0 } }
        (alistSet rooms roomCode room', none)

/-- The `start-game` handler (server.js lines 246-292). -/
def handleStartGame (rooms : Registry) (callerId roomCode : String)
    (dataRounds : Option Nat) (rand : Nat → Nat) : Registry × Option String :=
  match alistGet rooms roomCode with
  | none => (rooms, some "Not authorized to start game")
  | some room =>
      if room.hostId ≠ callerId then
        (rooms, some "Not authorized to start game")
      else if room.players.length < 2 then
        (rooms, some "Need at least 2 players")
      else
        let gs1 :=
          { room.gameState with
            totalRounds := jsOrNat dataRounds room.settings.rounds,
            status := Status.playing,
            currentRound := 1 }
        let gs2 :=
          { gs1 with
            scores := (alistKeys room.players).foldl (fun sc pid => alistSet sc pid 0) gs1.scores }
        let room' := assignCharacters rand { room with gameState := gs2 }
        (alistSet rooms roomCode room', none)

/-- The `make-guess` handler (server.js lines 295-321).  Note: the only
checks are room existence and `room.gameState.sipahiId !== socket.id`; the
game status is never consulted. -/
def handleMakeGuess (rooms : Registry) (callerId roomCode suspectedPlayerId : String) :
    Registry × Option String :=
  match alistGet rooms roomCode with
  | none => (rooms, some "Not your turn or invalid room")
  | some room =>
      if room.gameState.sipahiId ≠ some callerId then
        (rooms, some "Not your turn or invalid room")
      else
        let rr := calculateRoundResults room suspectedPlayerId
        let room2 :=
          { rr.1 with gameState := { rr.1.gameState with roundResults := some rr.2 } }
        (alistSet rooms roomCode room2, none)

/-- Stable insertion of a scored player into a descending-sorted list: the
new element goes before the first strictly smaller score, so elements with
equal scores keep their original relative order.  This is the observable
behaviour of `sort((a, b) => b.score - a.score)`, which ECMAScript
guarantees to be a stable sort. -/
def insertScoreDesc (x : Player × Int) : List (Player × Int) → List (Player × Int)
  | [] => [x]
  | y :: ys => if x.2 ≥ y.2 then x :: y :: ys else y :: insertScoreDesc x ys

/-- Stable descending sort by score (`.sort((a, b) => b.score - a.score)`,
server.js line 345). -/
def sortByScoreDesc (l : List (Player × Int)) : List (Player × Int) :=
  l.foldr insertScoreDesc []

/-- The `next-round` handler (server.js lines 324-373).  The third component
is the winner carried by the `game-finished` event (the player object paired
with its final score), `none` when no such event is emitted. -/
def handleNextRound (rooms : Registry) (callerId roomCode : String) (rand : Nat → Nat) :
    Registry × Option String × Option (Player × Int) :=
  match alistGet rooms roomCode with
  | none => (rooms, some "Not authorized", none)
  | some room =>
      if room.hostId ≠ callerId then
        (rooms, some "Not authorized", none)
      else
        let gs1 := { room.gameState with currentRound := room.gameState.currentRound + 1 }
        if gs1.currentRound > gs1.totalRounds then
          let gs2 := { gs1 with status := Status.finished }
          let scored := room.players.map (fun e => (e.2, (alistGet gs1.scores e.1).getD 0))
          let winner := (sortByScoreDesc scored).head?
          (alistSet rooms roomCode { room with gameState := gs2 }, none, winner)
        else
          let room' := assignCharacters rand { room with gameState := gs1 }
          (alistSet rooms roomCode room', none, none)

/-- The `disconnect` handler (server.js lines 376-412), restricted to its
effect on the room registry.  `playerRoomCode` is the `roomCode` recorded
for the socket in the global `players` map. -/
def handleDisconnect (rooms : Registry) (playerRoomCode : Option String)
    (pid : String) : Registry :=
  match playerRoomCode with
  | none => rooms
  | some code =>
      match alistGet rooms code with
      | none => rooms
      | some room =>
          let players' := alistRemove room.players pid
          let room1 :=
            { room with
              players := players'
              gameState :=
                { room.gameState with scores := alistRemove room.gameState.scores pid } }
          if room.hostId = pid then
            match players' with
            | [] => alistRemove rooms code
            | (newHostId, p) :: _ =>
                let room2 :=
                  { room1 with
                    hostId := newHostId
                    players := alistSet players' newHostId { p with isHost := true } }
                alistSet rooms code room2
          else
            alistSet rooms code room1

/-!
## The shuffle produces a permutation
-/

theorem count_set_aux {α : Type} [DecidableEq α] (x b a : α) :
    ∀ (l : List α) (i : Nat), l.get? i = some a →
      List.count x (l.set i b) + (if a = x then 1 else 0)
        = List.count x l + (if b = x then 1 else 0) := by
  intro l
  induction l with
  | nil => intro i h; simp at h
  | cons c t ih =>
      intro i h
      match i with
      | 0 =>
          simp only [List.get?] at h
          injection h with h
          subst h
          simp only [List.set, List.count_cons]
          split_ifs <;> simp_all
      | i + 1 =>
          simp only [List.get?] at h
          have ihh := ih i h
          simp only [List.set, List.count_cons]
          split_ifs at * <;> omega

theorem swapAt_perm {α : Type} [DecidableEq α] (l : List α) (i j : Nat) :
    List.Perm (swapAt l i j) l := by
  cases h1 : l.get? i with
  | none =>
      rw [List.get?_eq_getElem?] at h1
      simp [swapAt, h1]
  | some a =>
    cases h1' : l.get? j with
    | none =>
        have h2 := h1'
        rw [List.get?_eq_getElem?] at h1 h2
        simp [swapAt, h1, h2]
    | some b =>
        have h2 := h1'
        rw [List.get?_eq_getElem?] at h1 h2
        have hswap : swapAt l i j = (l.set i b).set j a := by
          simp [swapAt, h1, h2]
        have hjlen : j < l.length := by
          have := List.getElem?_eq_some.1 h2
          exact this.1
        rw [hswap, List.perm_iff_count]
        intro x
        by_cases hij : i = j
        · subst hij
          rw [h1] at h2
          injection h2 with h2
          subst h2
          have hget : (l.set i a).get? i = some a := by
            rw [List.get?_eq_getElem?]
            exact List.getElem?_set_eq_of_lt a (by simpa using hjlen)
          have e1 := count_set_aux x a a (l.set i a) i hget
          have e2 := count_set_aux x a a l i (by rw [List.get?_eq_getElem?]; exact h1)
          omega
        · have hget : (l.set i b).get? j = some b := by
            rw [List.get?_eq_getElem?, List.getElem?_set_ne hij]
            exact h2
          have e1 := count_set_aux x a b (l.set i b) j hget
          have e2 := count_set_aux x b a l i (by rw [List.get?_eq_getElem?]; exact h1)
          split_ifs at e1 e2 <;> omega

theorem shuffleGo_perm {α : Type} [DecidableEq α] (rand : Nat → Nat) :
    ∀ (i : Nat) (l : List α), List.Perm (shuffleGo rand i l) l
  | 0, l => List.Perm.refl l
  | i + 1, l =>
      (shuffleGo_perm rand i (swapAt l (i + 1) (rand (i + 1) % (i + 2)))).trans
        (swapAt_perm l (i + 1) (rand (i + 1) % (i + 2)))

/-- `shuffleArray` returns a permutation of its input. -/
theorem shuffleArray_perm {α : Type} [DecidableEq α] (rand : Nat → Nat) (l : List α) :
    List.Perm (shuffleArray rand l) l :=
  shuffleGo_perm rand (l.length - 1) l

theorem shuffleArray_roleList_nodup (rand : Nat → Nat) :
    (shuffleArray rand roleList).Nodup :=
  (shuffleArray_perm rand roleList).nodup_iff.2 (by decide)

theorem shuffleArray_roleList_length (rand : Nat → Nat) :
    (shuffleArray rand roleList).length = 4 :=
  (shuffleArray_perm rand roleList).length_eq

theorem mem_shuffleArray_roleList (rand : Nat → Nat) (r : Role) :
    r ∈ shuffleArray rand roleList :=
  ((shuffleArray_perm rand roleList).mem_iff).2 (by cases r <;> decide)

/-!
## Properties of the role-assignment loop
-/

/-- One step of `assignLoop` as a game-state transformer. -/
def assignStep (shuffled : List Role) (index : Nat) (playerId : String)
    (gs : GameState) : GameState :=
  let character := charAt shuffled index
  let gs1 := { gs with characters := alistSet gs.characters playerId character }
  if character = Role.Sipahi then { gs1 with sipahiId := some playerId }
  else if character = Role.Chor then { gs1 with chorId := some playerId }
  else gs1

theorem assignLoop_cons (sh : List Role) (index : Nat) (pid : String)
    (rest : List String) (gs : GameState) :
    assignLoop sh index (pid :: rest) gs
      = assignLoop sh (index + 1) rest (assignStep sh index pid gs) := rfl

theorem assignStep_frame (sh : List Role) (index : Nat) (pid : String)
    (gs : GameState) :
    (assignStep sh index pid gs).status = gs.status ∧
    (assignStep sh index pid gs).currentRound = gs.currentRound ∧
    (assignStep sh index pid gs).totalRounds = gs.totalRounds ∧
    (assignStep sh index pid gs).scores = gs.scores ∧
    (assignStep sh index pid gs).currentGuess = gs.currentGuess ∧
    (assignStep sh index pid gs).roundResults = gs.roundResults := by
  by_cases hS : charAt sh index = Role.Sipahi
  · simp [assignStep, hS]
  · by_cases hC : charAt sh index = Role.Chor <;> simp [assignStep, hS, hC]

theorem assignStep_characters (sh : List Role) (index : Nat) (pid : String)
    (gs : GameState) :
    (assignStep sh index pid gs).characters
      = alistSet gs.characters pid (charAt sh index) := by
  by_cases hS : charAt sh index = Role.Sipahi
  · simp [assignStep, hS]
  · by_cases hC : charAt sh index = Role.Chor <;> simp [assignStep, hS, hC]

/-- The loop never touches status, round counters, scores, the current guess
or the stored round results. -/
theorem assignLoop_frame (sh : List Role) :
    ∀ (ids : List String) (index : Nat) (gs : GameState),
      (assignLoop sh index ids gs).status = gs.status ∧
      (assignLoop sh index ids gs).currentRound = gs.currentRound ∧
      (assignLoop sh index ids gs).totalRounds = gs.totalRounds ∧
      (assignLoop sh index ids gs).scores = gs.scores ∧
      (assignLoop sh index ids gs).currentGuess = gs.currentGuess ∧
      (assignLoop sh index ids gs).roundResults = gs.roundResults
  | [], index, gs => by simp [assignLoop]
  | pid :: rest, index, gs => by
      rw [assignLoop_cons]
      have h1 := assignLoop_frame sh rest (index + 1) (assignStep sh index pid gs)
      have h2 := assignStep_frame sh index pid gs
      exact ⟨h1.1.trans h2.1, (h1.2.1).trans h2.2.1, (h1.2.2.1).trans h2.2.2.1,
        (h1.2.2.2.1).trans h2.2.2.2.1, (h1.2.2.2.2.1).trans h2.2.2.2.2.1,
        (h1.2.2.2.2.2).trans h2.2.2.2.2.2⟩

/-- Characters of ids not visited by the loop are untouched. -/
theorem assignLoop_characters_not_mem (sh : List Role) :
    ∀ (ids : List String) (index : Nat) (gs : GameState) (pid : String),
      pid ∉ ids →
      alistGet (assignLoop sh index ids gs).characters pid
        = alistGet gs.characters pid
  | [], _, _, _, _ => rfl
  | q :: rest, index, gs, pid, h => by
      rw [assignLoop_cons]
      have hne : pid ≠ q := fun hh => h (hh ▸ List.mem_cons_self q rest)
      rw [assignLoop_characters_not_mem sh rest (index + 1) _ pid
        (fun hm => h (List.mem_cons_of_mem q hm))]
      rw [assignStep_characters, alistGet_set_ne _ _ _ _ hne]

/-- The member at position `k` of the visited id list ends up with the
shuffled character at index `index + k`. -/
theorem assignLoop_characters_get (sh : List Role) :
    ∀ (ids : List String) (index : Nat) (gs : GameState) (k : Nat) (pid : String),
      ids.Nodup → ids.get? k = some pid →
      alistGet (assignLoop sh index ids gs).characters pid
        = some (charAt sh (index + k))
  | [], _, _, k, _, _, hk => by simp at hk
  | q :: rest, index, gs, 0, pid, hnd, hk => by
      simp only [List.get?] at hk
      injection hk with hk
      subst hk
      rw [assignLoop_cons]
      rw [assignLoop_characters_not_mem sh rest (index + 1) _ q
        (by simpa using (List.nodup_cons.1 hnd).1)]
      rw [assignStep_characters, alistGet_set_self]
      simp
  | q :: rest, index, gs, k + 1, pid, hnd, hk => by
      simp only [List.get?] at hk
      rw [assignLoop_cons]
      have := assignLoop_characters_get sh rest (index + 1) (assignStep sh index q gs)
        k pid (List.nodup_cons.1 hnd).2 hk
      rw [this]
      have harith : index + 1 + k = index + (k + 1) := by omega
      rw [harith]

/-- If no visited index carries the Sipahi label, `sipahiId` is unchanged. -/
theorem assignLoop_sipahiId_frame (sh : List Role) :
    ∀ (ids : List String) (index : Nat) (gs : GameState),
      (∀ k, k < ids.length → charAt sh (index + k) ≠ Role.Sipahi) →
      (assignLoop sh index ids gs).sipahiId = gs.sipahiId
  | [], _, _, _ => rfl
  | q :: rest, index, gs, h => by
      rw [assignLoop_cons]
      have h0 : charAt sh index ≠ Role.Sipahi := by
        have := h 0 (by simp)
        simpa using this
      have hrec := assignLoop_sipahiId_frame sh rest (index + 1)
        (assignStep sh index q gs)
        (fun k hk => by
          have := h (k + 1) (by simpa using Nat.succ_lt_succ hk)
          have harith : index + (k + 1) = index + 1 + k := by omega
          rw [harith] at this
          exact this)
      rw [hrec]
      by_cases hS : charAt sh index = Role.Sipahi
      · simp_all [assignStep]
      · by_cases hC : charAt sh index = Role.Chor <;> simp_all [assignStep]

/-- If no visited index carries the Chor label, `chorId` is unchanged. -/
theorem assignLoop_chorId_frame (sh : List Role) :
    ∀ (ids : List String) (index : Nat) (gs : GameState),
      (∀ k, k < ids.length → charAt sh (index + k) ≠ Role.Chor) →
      (assignLoop sh index ids gs).chorId = gs.chorId
  | [], _, _, _ => rfl
  | q :: rest, index, gs, h => by
      rw [assignLoop_cons]
      have h0 : charAt sh index ≠ Role.Chor := by
        have := h 0 (by simp)
        simpa using this
      have hrec := assignLoop_chorId_frame sh rest (index + 1)
        (assignStep sh index q gs)
        (fun k hk => by
          have := h (k + 1) (by simpa using Nat.succ_lt_succ hk)
          have harith : index + (k + 1) = index + 1 + k := by omega
          rw [harith] at this
          exact this)
      rw [hrec]
      by_cases hS : charAt sh index = Role.Sipahi
      · simp_all [assignStep]
      · by_cases hC : charAt sh index = Role.Chor <;> simp_all [assignStep]

/-- If the member at position `k` is the unique visited position carrying the
Sipahi label, `sipahiId` is overwritten with that member's id. -/
theorem assignLoop_sipahiId_set (sh : List Role) :
    ∀ (ids : List String) (index : Nat) (gs : GameState) (k : Nat) (pid : String),
      ids.get? k = some pid → charAt sh (index + k) = Role.Sipahi →
      (∀ j, j < ids.length → charAt sh (index + j) = Role.Sipahi → j = k) →
      (assignLoop sh index ids gs).sipahiId = some pid
  | [], _, _, k, _, hk, _, _ => by simp at hk
  | q :: rest, index, gs, 0, pid, hk, hS, huniq => by
      simp only [List.get?] at hk
      injection hk with hk
      subst hk
      rw [assignLoop_cons]
      have hrest : (assignLoop sh (index + 1) rest (assignStep sh index q gs)).sipahiId
          = (assignStep sh index q gs).sipahiId := by
        apply assignLoop_sipahiId_frame
        intro j hj hcon
        have harith : index + 1 + j = index + (j + 1) := by omega
        rw [harith] at hcon
        have := huniq (j + 1) (by simpa using Nat.succ_lt_succ hj) hcon
        omega
      rw [hrest]
      have hS0 : charAt sh index = Role.Sipahi := by simpa using hS
      simp [assignStep, hS0]
  | q :: rest, index, gs, k + 1, pid, hk, hS, huniq => by
      simp only [List.get?] at hk
      rw [assignLoop_cons]
      apply assignLoop_sipahiId_set sh rest (index + 1) _ k pid hk
      · have harith : index + 1 + k = index + (k + 1) := by omega
        rw [harith]
        exact hS
      · intro j hj hcon
        have harith : index + 1 + j = index + (j + 1) := by omega
        rw [harith] at hcon
        have := huniq (j + 1) (by simpa using Nat.succ_lt_succ hj) hcon
        omega

/-- Chor analogue of `assignLoop_sipahiId_set`. -/
theorem assignLoop_chorId_set (sh : List Role) :
    ∀ (ids : List String) (index : Nat) (gs : GameState) (k : Nat) (pid : String),
      ids.get? k = some pid → charAt sh (index + k) = Role.Chor →
      (∀ j, j < ids.length → charAt sh (index + j) = Role.Chor → j = k) →
      (assignLoop sh index ids gs).chorId = some pid
  | [], _, _, k, _, hk, _, _ => by simp at hk
  | q :: rest, index, gs, 0, pid, hk, hS, huniq => by
      simp only [List.get?] at hk
      injection hk with hk
      subst hk
      rw [assignLoop_cons]
      have hrest : (assignLoop sh (index + 1) rest (assignStep sh index q gs)).chorId
          = (assignStep sh index q gs).chorId := by
        apply assignLoop_chorId_frame
        intro j hj hcon
        have harith : index + 1 + j = index + (j + 1) := by omega
        rw [harith] at hcon
        have := huniq (j + 1) (by simpa using Nat.succ_lt_succ hj) hcon
        omega
      rw [hrest]
      have hS0 : charAt sh index = Role.Chor := by simpa using hS
      have hSne : charAt sh index ≠ Role.Sipahi := by simp [hS0]
      simp [assignStep, hS0, hSne]
  | q :: rest, index, gs, k + 1, pid, hk, hS, huniq => by
      simp only [List.get?] at hk
      rw [assignLoop_cons]
      apply assignLoop_chorId_set sh rest (index + 1) _ k pid hk
      · have harith : index + 1 + k = index + (k + 1) := by omega
        rw [harith]
        exact hS
      · intro j hj hcon
        have harith : index + 1 + j = index + (j + 1) := by omega
        rw [harith] at hcon
        have := huniq (j + 1) (by simpa using Nat.succ_lt_succ hj) hcon
        omega

/-!
## Claim C1 — role assignment invariant

What `assignCharacters` actually guarantees for a room with `n ≤ 4` members
(nodup member ids): every member gets exactly one role, no role is given to
two members, and a member holding Sipahi (resp. Chor) exists exactly when the
first `n` shuffled labels contain it — in particular always when `n = 4`, but
not necessarily when `n ∈ {2, 3}`.
-/

theorem charAt_eq_get (sh : List Role) (k : Nat) (h : k < sh.length) :
    charAt sh k = sh.get ⟨k, h⟩ := by
  unfold charAt
  rw [List.get?_eq_get h]

/-- The conclusion of the (amended) claim C1: after a role assignment, every
current member has exactly one role, no role is shared between two members,
and when all four seats are taken there is exactly one Sipahi-holder and
exactly one Chor-holder. -/
def RoleAssignmentSound (room : Room) (rand : Nat → Nat) : Prop :=
  let room' := assignCharacters rand room
  let ids := alistKeys room.players
  (∀ pid, pid ∈ ids → (alistGet room'.gameState.characters pid).isSome) ∧
  (∀ p q, p ∈ ids → q ∈ ids → p ≠ q →
    alistGet room'.gameState.characters p ≠ alistGet room'.gameState.characters q) ∧
  (ids.length = 4 →
    ((∃ p, p ∈ ids ∧ alistGet room'.gameState.characters p = some Role.Sipahi) ∧
     (∃ p, p ∈ ids ∧ alistGet room'.gameState.characters p = some Role.Chor)))

/-- C1 (amended): in a playing room with 2-4 members (nodup ids, as the JS
`Map` keys always are), a role assignment gives every member exactly one
role with no repeats; exactly one Sipahi and one Chor holder are guaranteed
only when the room is full (4 members). -/
theorem c1_role_assignment (room : Room) (rand : Nat → Nat)
    (hst : room.gameState.status = Status.playing)
    (hnd : (alistKeys room.players).Nodup)
    (h2 : 2 ≤ (alistKeys room.players).length)
    (h4 : (alistKeys room.players).length ≤ 4) :
    RoleAssignmentSound room rand := by
  classical
  set sh := shuffleArray rand roleList with hsh
  have hshlen : sh.length = 4 := shuffleArray_roleList_length rand
  have hshnd : sh.Nodup := shuffleArray_roleList_nodup rand
  set ids := alistKeys room.players with hids
  have hids_len : ids.length = (alistKeys room.players).length := rfl
  have hchars : ∀ (k : Nat) (pid : String), ids.get? k = some pid →
      alistGet (assignCharacters rand room).gameState.characters pid
        = some (charAt sh k) := by
    intro k pid hk
    unfold assignCharacters
    simpa using assignLoop_characters_get sh ids 0 room.gameState k pid hnd hk
  refine ⟨?_, ?_, ?_⟩
  · intro pid hpid
    rcases List.mem_iff_get.1 hpid with ⟨⟨k, hklt⟩, hget⟩
    have hk : ids.get? k = some pid := by
      rw [List.get?_eq_get hklt]
      exact congrArg some hget
    rw [hchars k pid hk]
    rfl
  · intro p q hp hq hpq
    rcases List.mem_iff_get.1 hp with ⟨⟨kp, hkp⟩, hgp⟩
    rcases List.mem_iff_get.1 hq with ⟨⟨kq, hkq⟩, hgq⟩
    have hkp' : ids.get? kp = some p := by
      rw [List.get?_eq_get hkp]; exact congrArg some hgp
    have hkq' : ids.get? kq = some q := by
      rw [List.get?_eq_get hkq]; exact congrArg some hgq
    rw [hchars kp p hkp', hchars kq q hkq']
    intro hcon
    injection hcon with hcon
    have hkplt : kp < sh.length := by omega
    have hkqlt : kq < sh.length := by omega
    rw [charAt_eq_get sh kp hkplt, charAt_eq_get sh kq hkqlt] at hcon
    have : (⟨kp, hkplt⟩ : Fin sh.length) = ⟨kq, hkqlt⟩ :=
      (List.Nodup.get_inj_iff hshnd).1 hcon
    have hkk : kp = kq := congrArg Fin.val this
    subst hkk
    rw [hkp'] at hkq'
    injection hkq' with hh
    exact hpq hh
  · intro hlen
    constructor
    · have hmem : Role.Sipahi ∈ sh := mem_shuffleArray_roleList rand Role.Sipahi
      rcases List.mem_iff_get.1 hmem with ⟨⟨k, hklt⟩, hget⟩
      have hkids : k < ids.length := by omega
      refine ⟨ids.get ⟨k, hkids⟩, List.get_mem ids k hkids, ?_⟩
      have hk : ids.get? k = some (ids.get ⟨k, hkids⟩) := List.get?_eq_get hkids
      rw [hchars k _ hk, charAt_eq_get sh k hklt, hget]
    · have hmem : Role.Chor ∈ sh := mem_shuffleArray_roleList rand Role.Chor
      rcases List.mem_iff_get.1 hmem with ⟨⟨k, hklt⟩, hget⟩
      have hkids : k < ids.length := by omega
      refine ⟨ids.get ⟨k, hkids⟩, List.get_mem ids k hkids, ?_⟩
      have hk : ids.get? k = some (ids.get ⟨k, hkids⟩) := List.get?_eq_get hkids
      rw [hchars k _ hk, charAt_eq_get sh k hklt, hget]

/-- A concrete 2-member playing room (host `A`, guest `B`). -/
def roomC1 : Room :=
  { code := "R1"
    hostId := "A"
    players :=
      [("A", { id := "A", name := "Alice", avatar := "", isHost := true, isReady := true }),
       ("B", { id := "B", name := "Bob", avatar := "", isHost := false, isReady := true })]
    gameState :=
      { status := Status.playing, currentRound := 1, totalRounds := 5,
        characters := [], scores := [("A", 0), ("B", 0)],
        sipahiId := none, chorId := none, currentGuess := none, roundResults := none }
    settings := { maxPlayers := 4, rounds := 5 } }

/-- C1 counterexample: with 2 members and the identity shuffle (every random
draw equal to the loop index, so no swap moves anything), the members receive
Raja and Mantri — no current member holds Sipahi and none holds Chor, even
though the room is playing with ≥ 2 members.  The claimed "exactly one member
holds Sipahi and exactly one holds Chor" is false. -/
theorem c1_counterexample :
    (assignCharacters (fun i => i) roomC1).gameState.status = Status.playing ∧
    2 ≤ (alistKeys (assignCharacters (fun i => i) roomC1).players).length ∧
    (¬ ∃ p, p ∈ alistKeys (assignCharacters (fun i => i) roomC1).players ∧
        alistGet (assignCharacters (fun i => i) roomC1).gameState.characters p
          = some Role.Sipahi) ∧
    (¬ ∃ p, p ∈ alistKeys (assignCharacters (fun i => i) roomC1).players ∧
        alistGet (assignCharacters (fun i => i) roomC1).gameState.characters p
          = some Role.Chor) := by
  decide

/-- A concrete full (4-member) playing room. -/
def roomC1full : Room :=
  { roomC1 with
    players :=
      [("A", { id := "A", name := "Alice", avatar := "", isHost := true, isReady := true }),
       ("B", { id := "B", name := "Bob", avatar := "", isHost := false, isReady := true }),
       ("C", { id := "C", name := "Cara", avatar := "", isHost := false, isReady := true }),
       ("D", { id := "D", name := "Dan", avatar := "", isHost := false, isReady := true })] }

/-- Witness for `c1_role_assignment` at a concrete full room. -/
theorem c1_witness : RoleAssignmentSound roomC1full (fun i => i) :=
  c1_role_assignment roomC1full (fun i => i) (by decide) (by decide) (by decide) (by decide)

/-!
## Claim C10 — frame and pointer-retention of `assignCharacters`
-/

/-- The conclusion of claim C10: `assignCharacters` only rewrites
`characters`, `sipahiId` and `chorId`; the two cached pointers are
overwritten exactly when some member receives the corresponding label
(position < member count in the shuffled list), and otherwise keep their
previous value. -/
def AssignCharactersC10 (room : Room) (rand : Nat → Nat) : Prop :=
  let room' := assignCharacters rand room
  let sh := shuffleArray rand roleList
  let ids := alistKeys room.players
  room'.players = room.players ∧
  room'.code = room.code ∧
  room'.hostId = room.hostId ∧
  room'.settings = room.settings ∧
  room'.gameState.status = room.gameState.status ∧
  room'.gameState.currentRound = room.gameState.currentRound ∧
  room'.gameState.totalRounds = room.gameState.totalRounds ∧
  room'.gameState.scores = room.gameState.scores ∧
  room'.gameState.currentGuess = room.gameState.currentGuess ∧
  room'.gameState.roundResults = room.gameState.roundResults ∧
  ((∀ k, k < ids.length → charAt sh k ≠ Role.Sipahi) →
    room'.gameState.sipahiId = room.gameState.sipahiId) ∧
  ((∀ k, k < ids.length → charAt sh k ≠ Role.Chor) →
    room'.gameState.chorId = room.gameState.chorId) ∧
  (∀ k pid, ids.get? k = some pid → charAt sh k = Role.Sipahi →
    room'.gameState.sipahiId = some pid) ∧
  (∀ k pid, ids.get? k = some pid → charAt sh k = Role.Chor →
    room'.gameState.chorId = some pid)

/-- C10: `assignCharacters` overwrites `sipahiId` (resp. `chorId`) exactly
when some member receives that label in the new shuffle, retains them
otherwise, and leaves every other room and game-state field unchanged. -/
theorem c10_assign_frame (room : Room) (rand : Nat → Nat)
    (h4 : (alistKeys room.players).length ≤ 4) :
    AssignCharactersC10 room rand := by
  classical
  unfold AssignCharactersC10
  set sh := shuffleArray rand roleList with hsh
  have hshlen : sh.length = 4 := shuffleArray_roleList_length rand
  have hshnd : sh.Nodup := shuffleArray_roleList_nodup rand
  set ids := alistKeys room.players with hids
  have hids_len : ids.length = (alistKeys room.players).length := rfl
  have hframe := assignLoop_frame sh ids 0 room.gameState
  have huniqS : ∀ k j, k < ids.length → j < ids.length →
      charAt sh k = Role.Sipahi → charAt sh j = Role.Sipahi → j = k := by
    intro k j hk hj hck hcj
    have hk4 : k < sh.length := by omega
    have hj4 : j < sh.length := by omega
    rw [charAt_eq_get sh k hk4] at hck
    rw [charAt_eq_get sh j hj4] at hcj
    have : (⟨j, hj4⟩ : Fin sh.length) = ⟨k, hk4⟩ :=
      (List.Nodup.get_inj_iff hshnd).1 (hcj.trans hck.symm)
    exact congrArg Fin.val this
  have huniqC : ∀ k j, k < ids.length → j < ids.length →
      charAt sh k = Role.Chor → charAt sh j = Role.Chor → j = k := by
    intro k j hk hj hck hcj
    have hk4 : k < sh.length := by omega
    have hj4 : j < sh.length := by omega
    rw [charAt_eq_get sh k hk4] at hck
    rw [charAt_eq_get sh j hj4] at hcj
    have : (⟨j, hj4⟩ : Fin sh.length) = ⟨k, hk4⟩ :=
      (List.Nodup.get_inj_iff hshnd).1 (hcj.trans hck.symm)
    exact congrArg Fin.val this
  refine ⟨rfl, rfl, rfl, rfl, hframe.1, hframe.2.1, hframe.2.2.1, hframe.2.2.2.1,
    hframe.2.2.2.2.1, hframe.2.2.2.2.2, ?_, ?_, ?_, ?_⟩
  · intro h
    exact assignLoop_sipahiId_frame sh ids 0 room.gameState (fun k hk => by
      simpa using h k hk)
  · intro h
    exact assignLoop_chorId_frame sh ids 0 room.gameState (fun k hk => by
      simpa using h k hk)
  · intro k pid hk hS
    have hklt : k < ids.length := by
      have := List.get?_eq_some.1 hk
      exact this.1
    exact assignLoop_sipahiId_set sh ids 0 room.gameState k pid hk (by simpa using hS)
      (fun j hj hcj => huniqS k j hklt hj hS (by simpa using hcj))
  · intro k pid hk hS
    have hklt : k < ids.length := by
      have := List.get?_eq_some.1 hk
      exact this.1
    exact assignLoop_chorId_set sh ids 0 room.gameState k pid hk (by simpa using hS)
      (fun j hj hcj => huniqC k j hklt hj hS (by simpa using hcj))

/-- A 2-member playing room carrying stale `sipahiId`/`chorId` pointers from
an earlier round, used to exercise claim C10. -/
def roomC10 : Room :=
  { roomC1 with
    gameState :=
      { roomC1.gameState with
        sipahiId := some "A", chorId := some "B",
        characters := [("A", Role.Sipahi), ("B", Role.Chor)] } }

/-- Witness for `c10_assign_frame`: a concrete 2-member room under the
identity shuffle (members receive Raja and Mantri, so both pointers are
retained). -/
theorem c10_witness : AssignCharactersC10 roomC10 (fun i => i) :=
  c10_assign_frame roomC10 (fun i => i) (by decide)

/-!
## Properties of the round-result computation
-/

theorem alistKeys_cons {κ β : Type} (e : κ × β) (l : List (κ × β)) :
    alistKeys (e :: l) = e.1 :: alistKeys l := rfl

theorem alistKeys_set_of_mem {κ β : Type} [DecidableEq κ]
    (l : List (κ × β)) (k : κ) (v : β) (h : k ∈ alistKeys l) :
    alistKeys (alistSet l k v) = alistKeys l := by
  induction l with
  | nil => simp [alistKeys] at h
  | cons e rest ih =>
      by_cases he : e.1 = k
      · subst he
        simp [alistSet, alistKeys]
      · have hr : k ∈ alistKeys rest := by
          rcases (by simpa [alistKeys] using h : k = e.1 ∨ k ∈ alistKeys rest) with hh | hh
          · exact absurd hh.symm he
          · exact hh
        have h2 : List.map Prod.fst (alistSet rest k v) = List.map Prod.fst rest := by
          simpa [alistKeys] using ih hr
        simp [alistSet, he, alistKeys, h2]

theorem alistGet_map_const {κ β : Type} [DecidableEq κ]
    (ids : List κ) (v : β) (p : κ) (h : p ∈ ids) :
    alistGet (ids.map (fun pid => (pid, v))) p = some v := by
  induction ids with
  | nil => simp at h
  | cons q rest ih =>
      by_cases hq : q = p
      · simp [alistGet_cons, hq]
      · rcases List.mem_cons.1 h with hh | hh
        · exact absurd hh.symm hq
        · simp [alistGet_cons, hq, ih hh]

theorem alistKeys_map_const {κ β : Type} (ids : List κ) (v : β) :
    alistKeys (ids.map (fun pid => (pid, v))) = ids := by
  simp [alistKeys, List.map_map]
  exact List.map_id ids

/-- Lookup after the Raja/Mantri pass: a key currently holding Raja (resp.
Mantri) in the character map reads its base points; every other key is
untouched.  Requires the character map to have no duplicate keys. -/
theorem rajaMantriPass_get (chars : List (String × Role)) :
    ∀ (pc : List (String × Int)) (x : String), (alistKeys chars).Nodup →
      alistGet (rajaMantriPass chars pc) x =
        if alistGet chars x = some Role.Raja then some (Role.points Role.Raja)
        else if alistGet chars x = some Role.Mantri then some (Role.points Role.Mantri)
        else alistGet pc x
  | pc, x, _ => by
    induction chars generalizing pc with
    | nil => simp [rajaMantriPass, alistGet]
    | cons e rest ih =>
        rename_i hnd
        rw [show alistKeys (e :: rest) = e.1 :: alistKeys rest from rfl,
          List.nodup_cons] at hnd
        have hnd' : (alistKeys rest).Nodup := hnd.2
        have hnotin : e.1 ∉ alistKeys rest := hnd.1
        have hstep : rajaMantriPass (e :: rest) pc
            = rajaMantriPass rest
                (if e.2 = Role.Raja then alistSet pc e.1 (Role.points Role.Raja)
                 else if e.2 = Role.Mantri then alistSet pc e.1 (Role.points Role.Mantri)
                 else pc) := by
          simp [rajaMantriPass]
        rw [hstep, ih _ hnd']
        by_cases hx : e.1 = x
        · subst hx
          have hrest : alistGet rest e.1 = none := (alistGet_eq_none_iff rest e.1).2 hnotin
          rw [alistGet_cons]
          simp only [if_pos rfl, hrest]
          rcases e with ⟨k, r⟩
          cases r <;> simp
        · rw [alistGet_cons, if_neg hx]
          by_cases h1 : alistGet rest x = some Role.Raja
          · simp [h1]
          · by_cases h2 : alistGet rest x = some Role.Mantri
            · simp [h1, h2]
            · simp only [h1, h2, if_false]
              have hset : ∀ v : Int, alistGet (alistSet pc e.1 v) x = alistGet pc x :=
                fun v => alistGet_set_ne pc e.1 x v (fun hh => hx hh.symm)
              split_ifs <;> simp [hset]

theorem rajaMantriPass_keys_subset (chars : List (String × Role)) :
    ∀ (pc : List (String × Int)) (x : String),
      x ∈ alistKeys (rajaMantriPass chars pc) →
      x ∈ alistKeys pc ∨ x ∈ alistKeys chars := by
  induction chars with
  | nil => intro pc x h; exact Or.inl h
  | cons e rest ih =>
      intro pc x h
      have hstep : rajaMantriPass (e :: rest) pc
          = rajaMantriPass rest
              (if e.2 = Role.Raja then alistSet pc e.1 (Role.points Role.Raja)
               else if e.2 = Role.Mantri then alistSet pc e.1 (Role.points Role.Mantri)
               else pc) := by
        simp [rajaMantriPass]
      rw [hstep] at h
      rcases ih _ x h with hh | hh
      · split_ifs at hh with h1 h2
        · rcases (mem_alistKeys_set pc e.1 x _).1 hh with hm | hm
          · exact Or.inl hm
          · exact Or.inr (by rw [alistKeys_cons, hm]; exact List.mem_cons_self _ _)
        · rcases (mem_alistKeys_set pc e.1 x _).1 hh with hm | hm
          · exact Or.inl hm
          · exact Or.inr (by rw [alistKeys_cons, hm]; exact List.mem_cons_self _ _)
        · exact Or.inl hh
      · exact Or.inr (by rw [alistKeys_cons]; exact List.mem_cons_of_mem _ hh)

theorem rajaMantriPass_keys_of_subset (chars : List (String × Role)) :
    ∀ (pc : List (String × Int)),
      (∀ k, k ∈ alistKeys chars → k ∈ alistKeys pc) →
      alistKeys (rajaMantriPass chars pc) = alistKeys pc := by
  induction chars with
  | nil => intro pc _; rfl
  | cons e rest ih =>
      intro pc hsub
      have hstep : rajaMantriPass (e :: rest) pc
          = rajaMantriPass rest
              (if e.2 = Role.Raja then alistSet pc e.1 (Role.points Role.Raja)
               else if e.2 = Role.Mantri then alistSet pc e.1 (Role.points Role.Mantri)
               else pc) := by
        simp [rajaMantriPass]
      have hmem : e.1 ∈ alistKeys pc := hsub e.1 (by rw [alistKeys_cons]; exact List.mem_cons_self _ _)
      rw [hstep]
      split_ifs with h1 h2
      · rw [ih _ (fun k hk => by
          rw [alistKeys_set_of_mem pc e.1 _ hmem]
          exact hsub k (by rw [alistKeys_cons]; exact List.mem_cons_of_mem _ hk))]
        exact alistKeys_set_of_mem pc e.1 _ hmem
      · rw [ih _ (fun k hk => by
          rw [alistKeys_set_of_mem pc e.1 _ hmem]
          exact hsub k (by rw [alistKeys_cons]; exact List.mem_cons_of_mem _ hk))]
        exact alistKeys_set_of_mem pc e.1 _ hmem
      · exact ih _ (fun k hk => hsub k (by rw [alistKeys_cons]; exact List.mem_cons_of_mem _ hk))

/-- Lookup after the score-update pass: each key of the (nodup-keyed) point
changes gets its delta added onto `(scores[k] || 0)`; all other keys keep
their old value. -/
theorem applyPointChanges_get (pc : List (String × Int)) :
    ∀ (sc : List (String × Int)) (x : String), (alistKeys pc).Nodup →
      alistGet (applyPointChanges pc sc) x =
        match alistGet pc x with
        | some p => some ((alistGet sc x).getD 0 + p)
        | none => alistGet sc x := by
  induction pc with
  | nil => intro sc x _; simp [applyPointChanges, alistGet]
  | cons e rest ih =>
      intro sc x hnd
      rw [show alistKeys (e :: rest) = e.1 :: alistKeys rest from rfl,
        List.nodup_cons] at hnd
      have hnd' : (alistKeys rest).Nodup := hnd.2
      have hnotin : e.1 ∉ alistKeys rest := hnd.1
      have hstep : applyPointChanges (e :: rest) sc
          = applyPointChanges rest (alistSet sc e.1 ((alistGet sc e.1).getD 0 + e.2)) := by
        simp [applyPointChanges]
      rw [hstep, ih _ x hnd']
      by_cases hx : e.1 = x
      · subst hx
        have hrest : alistGet rest e.1 = none := (alistGet_eq_none_iff rest e.1).2 hnotin
        rw [alistGet_cons]
        simp [hrest]
      · rw [alistGet_cons, if_neg hx]
        have hne := alistGet_set_ne sc e.1 x ((alistGet sc e.1).getD 0 + e.2)
          (fun hh => hx hh.symm)
        cases alistGet rest x <;> simp [hne]

theorem applyPointChanges_keys_subset (pc : List (String × Int)) :
    ∀ (sc : List (String × Int)) (x : String),
      x ∈ alistKeys (applyPointChanges pc sc) →
      x ∈ alistKeys sc ∨ x ∈ alistKeys pc := by
  induction pc with
  | nil => intro sc x h; exact Or.inl h
  | cons e rest ih =>
      intro sc x h
      have hstep : applyPointChanges (e :: rest) sc
          = applyPointChanges rest (alistSet sc e.1 ((alistGet sc e.1).getD 0 + e.2)) := by
        simp [applyPointChanges]
      rw [hstep] at h
      rcases ih _ x h with hh | hh
      · rcases (mem_alistKeys_set sc e.1 x _).1 hh with hm | hm
        · exact Or.inl hm
        · exact Or.inr (by rw [alistKeys_cons, hm]; exact List.mem_cons_self _ _)
      · exact Or.inr (by rw [alistKeys_cons]; exact List.mem_cons_of_mem _ hh)

/-!
## Claim C2 — guess resolution deltas and score update
-/

/-- `calculateRoundResults` unfolded, given non-null `sipahiId`/`chorId`. -/
theorem calculateRoundResults_eq (room : Room) (suspected s c : String)
    (hs : room.gameState.sipahiId = some s)
    (hc : room.gameState.chorId = some c) :
    calculateRoundResults room suspected =
      (let pc0 : List (String × Int) := (alistKeys room.players).map (fun pid => (pid, 0))
       let pc1 := if c = suspected
         then alistSet (alistSet pc0 s (Role.points Role.Sipahi)) c (Role.points Role.Chor)
         else alistSet (alistSet pc0 s (Role.points Role.Chor)) c (Role.points Role.Sipahi)
       let pc2 := rajaMantriPass room.gameState.characters pc1
       ({ room with gameState := { room.gameState with
            scores := applyPointChanges pc2 room.gameState.scores } },
        { sipahiId := some s, chorId := some c, suspectedPlayerId := suspected,
          isCorrectGuess := decide (c = suspected), pointChanges := pc2 })) := by
  simp only [calculateRoundResults, hs, hc, keyOf]
  by_cases h : c = suspected <;> simp [h]

/-- The conclusion of claim C2, for a round resolved in a room where the
character map covers exactly the current members and `s` / `c` are the
members holding Sipahi / Chor. -/
def RoundDeltasC2 (room : Room) (suspected s c : String) : Prop :=
  let rr := calculateRoundResults room suspected
  let pc := rr.2.pointChanges
  rr.2.isCorrectGuess = decide (suspected = c) ∧
  alistGet pc s =
    some (if suspected = c then Role.points Role.Sipahi else Role.points Role.Chor) ∧
  alistGet pc c =
    some (if suspected = c then Role.points Role.Chor else Role.points Role.Sipahi) ∧
  (∀ r, alistGet room.gameState.characters r = some Role.Raja →
    alistGet pc r = some (Role.points Role.Raja)) ∧
  (∀ r, alistGet room.gameState.characters r = some Role.Mantri →
    alistGet pc r = some (Role.points Role.Mantri)) ∧
  (∀ p, p ∈ alistKeys room.players → p ≠ s → p ≠ c →
    alistGet room.gameState.characters p ≠ some Role.Raja →
    alistGet room.gameState.characters p ≠ some Role.Mantri →
    alistGet pc p = some 0) ∧
  (∀ p, p ∈ alistKeys room.players →
    alistGet rr.1.gameState.scores p
      = some ((alistGet room.gameState.scores p).getD 0 + (alistGet pc p).getD 0)) ∧
  (∀ p, p ∉ alistKeys room.players →
    alistGet rr.1.gameState.scores p = alistGet room.gameState.scores p)

/-- C2: on a guess in a well-formed playing round (character map keyed
exactly by the current members, `s` the Sipahi-holder, `c` the Chor-holder),
the Sipahi's delta is 700 and the Chor's 0 on a correct guess, swapped on an
incorrect one; Raja and Mantri holders always get 2000 and 900; every other
member's delta is 0; and the cumulative scores are incremented in place by
exactly these deltas. -/
theorem c2_round_deltas (room : Room) (suspected s c : String)
    (hnd : (alistKeys room.players).Nodup)
    (hkeys : alistKeys room.gameState.characters = alistKeys room.players)
    (hs : room.gameState.sipahiId = some s)
    (hc : room.gameState.chorId = some c)
    (hsM : alistGet room.gameState.characters s = some Role.Sipahi)
    (hcM : alistGet room.gameState.characters c = some Role.Chor) :
    RoundDeltasC2 room suspected s c := by
  classical
  have hcnd : (alistKeys room.gameState.characters).Nodup := by rw [hkeys]; exact hnd
  have hsc : s ≠ c := by
    intro h
    rw [h, hcM] at hsM
    exact absurd (Option.some.injEq _ _ ▸ hsM) (by simp)
  have hsmem : s ∈ alistKeys room.players := by
    rw [← hkeys]
    rw [← alistGet_isSome_iff]
    simp [hsM]
  have hcmem : c ∈ alistKeys room.players := by
    rw [← hkeys]
    rw [← alistGet_isSome_iff]
    simp [hcM]
  set ids := alistKeys room.players with hids
  set pc0 : List (String × Int) := ids.map (fun pid => (pid, 0)) with hpc0
  have hpc0keys : alistKeys pc0 = ids := alistKeys_map_const ids 0
  set pc1 := if c = suspected
    then alistSet (alistSet pc0 s (Role.points Role.Sipahi)) c (Role.points Role.Chor)
    else alistSet (alistSet pc0 s (Role.points Role.Chor)) c (Role.points Role.Sipahi)
    with hpc1
  have hpc1keys : alistKeys pc1 = ids := by
    rw [hpc1]
    have h1 : s ∈ alistKeys pc0 := by rw [hpc0keys]; exact hsmem
    have h2 : ∀ v : Int, alistKeys (alistSet pc0 s v) = ids := by
      intro v
      rw [alistKeys_set_of_mem pc0 s v h1, hpc0keys]
    have h3 : ∀ v w : Int, alistKeys (alistSet (alistSet pc0 s v) c w) = ids := by
      intro v w
      rw [alistKeys_set_of_mem _ c w (by rw [h2 v]; exact hcmem), h2 v]
    split_ifs <;> apply h3
  set pc2 := rajaMantriPass room.gameState.characters pc1 with hpc2
  have hpc2keys : alistKeys pc2 = ids := by
    rw [hpc2, rajaMantriPass_keys_of_subset _ pc1
      (fun k hk => by rw [hpc1keys]; rw [hkeys] at hk; exact hk), hpc1keys]
  have hpc2nd : (alistKeys pc2).Nodup := by rw [hpc2keys]; exact hnd
  have hcalc := calculateRoundResults_eq room suspected s c hs hc
  have hpcEq : (calculateRoundResults room suspected).2.pointChanges = pc2 := by
    rw [hcalc]
  have hscoresEq : (calculateRoundResults room suspected).1.gameState.scores
      = applyPointChanges pc2 room.gameState.scores := by
    rw [hcalc]
  have hpc1s : alistGet pc1 s
      = some (if suspected = c then Role.points Role.Sipahi else Role.points Role.Chor) := by
    rw [hpc1]
    by_cases h : c = suspected
    · rw [if_pos h, alistGet_set_ne _ _ _ _ hsc, alistGet_set_self, if_pos h.symm]
    · rw [if_neg h, alistGet_set_ne _ _ _ _ hsc, alistGet_set_self,
        if_neg (fun hh => h hh.symm)]
  have hpc1c : alistGet pc1 c
      = some (if suspected = c then Role.points Role.Chor else Role.points Role.Sipahi) := by
    rw [hpc1]
    by_cases h : c = suspected
    · rw [if_pos h, alistGet_set_self, if_pos h.symm]
    · rw [if_neg h, alistGet_set_self, if_neg (fun hh => h hh.symm)]
  have hRM : ∀ x, alistGet pc2 x =
      if alistGet room.gameState.characters x = some Role.Raja then some (Role.points Role.Raja)
      else if alistGet room.gameState.characters x = some Role.Mantri then some (Role.points Role.Mantri)
      else alistGet pc1 x :=
    fun x => rajaMantriPass_get room.gameState.characters pc1 x hcnd
  refine ⟨?_, ?_, ?_, ?_, ?_, ?_, ?_, ?_⟩
  · rw [hcalc]
    by_cases h : c = suspected
    · subst h
      simp
    · have h' : suspected ≠ c := fun hh => h hh.symm
      simp [h, h']
  · rw [hpcEq, hRM s, hsM]
    simp [hpc1s]
  · rw [hpcEq, hRM c, hcM]
    simp [hpc1c]
  · intro r hr
    rw [hpcEq, hRM r, hr]
    simp
  · intro r hr
    rw [hpcEq, hRM r, hr]
    simp
  · intro p hp hps hpc' hpR hpM
    rw [hpcEq, hRM p, if_neg hpR, if_neg hpM, hpc1]
    have hbase : alistGet pc0 p = some 0 := alistGet_map_const ids 0 p hp
    split_ifs <;>
      rw [alistGet_set_ne _ _ _ _ hpc', alistGet_set_ne _ _ _ _ hps, hbase]
  · intro p hp
    rw [hscoresEq, hpcEq]
    rw [applyPointChanges_get pc2 room.gameState.scores p hpc2nd]
    have hsome : (alistGet pc2 p).isSome := by
      rw [alistGet_isSome_iff, hpc2keys]
      exact hp
    rcases Option.isSome_iff_exists.1 hsome with ⟨d, hd⟩
    rw [hd]
    simp
  · intro p hp
    rw [hscoresEq]
    rw [applyPointChanges_get pc2 room.gameState.scores p hpc2nd]
    have hnone : alistGet pc2 p = none := by
      rw [alistGet_eq_none_iff, hpc2keys]
      exact hp
    rw [hnone]

/-- A well-formed 4-member playing round for exercising claims C2 and C9:
`A` holds Sipahi, `B` Chor, `C` Raja, `D` Mantri. -/
def roomC2 : Room :=
  { code := "R2"
    hostId := "A"
    players :=
      [("A", { id := "A", name := "Alice", avatar := "", isHost := true, isReady := true }),
       ("B", { id := "B", name := "Bob", avatar := "", isHost := false, isReady := true }),
       ("C", { id := "C", name := "Cara", avatar := "", isHost := false, isReady := true }),
       ("D", { id := "D", name := "Dan", avatar := "", isHost := false, isReady := true })]
    gameState :=
      { status := Status.playing, currentRound := 1, totalRounds := 5,
        characters :=
          [("A", Role.Sipahi), ("B", Role.Chor), ("C", Role.Raja), ("D", Role.Mantri)],
        scores := [("A", 0), ("B", 0), ("C", 0), ("D", 0)],
        sipahiId := some "A", chorId := some "B",
        currentGuess := none, roundResults := none }
    settings := { maxPlayers := 4, rounds := 5 } }

/-- Witness for `c2_round_deltas` at a concrete correct guess. -/
theorem c2_witness : RoundDeltasC2 roomC2 "B" "A" "B" :=
  c2_round_deltas roomC2 "B" "A" "B" (by decide) (by decide) (by decide) (by decide)
    (by decide) (by decide)

/-!
## Claim C9 — `make-guess` has no once-per-round guard
-/

/-- `calculateRoundResults` mutates only `scores` (and reports the result
record); players, characters, pointers, status and counters are untouched. -/
theorem calculateRoundResults_frame (room : Room) (suspected : String) :
    (calculateRoundResults room suspected).1.players = room.players ∧
    (calculateRoundResults room suspected).1.code = room.code ∧
    (calculateRoundResults room suspected).1.hostId = room.hostId ∧
    (calculateRoundResults room suspected).1.settings = room.settings ∧
    (calculateRoundResults room suspected).1.gameState.status = room.gameState.status ∧
    (calculateRoundResults room suspected).1.gameState.currentRound
      = room.gameState.currentRound ∧
    (calculateRoundResults room suspected).1.gameState.totalRounds
      = room.gameState.totalRounds ∧
    (calculateRoundResults room suspected).1.gameState.characters
      = room.gameState.characters ∧
    (calculateRoundResults room suspected).1.gameState.sipahiId
      = room.gameState.sipahiId ∧
    (calculateRoundResults room suspected).1.gameState.chorId
      = room.gameState.chorId := by
  simp [calculateRoundResults]

/-- The point changes depend only on the member list, the character map and
the two cached pointers. -/
theorem calculateRoundResults_pointChanges_congr (roomA roomB : Room) (suspected : String)
    (hp : roomA.players = roomB.players)
    (hch : roomA.gameState.characters = roomB.gameState.characters)
    (hsi : roomA.gameState.sipahiId = roomB.gameState.sipahiId)
    (hco : roomA.gameState.chorId = roomB.gameState.chorId) :
    (calculateRoundResults roomA suspected).2.pointChanges
      = (calculateRoundResults roomB suspected).2.pointChanges := by
  simp [calculateRoundResults, hp, hch, hsi, hco]

/-- The room stored back by a successful `make-guess`: scores updated by
`calculateRoundResults`, and the result record cached in `roundResults`. -/
def guessedRoom (room : Room) (suspected : String) : Room :=
  { (calculateRoundResults room suspected).1 with
    gameState := { (calculateRoundResults room suspected).1.gameState with
      roundResults := some (calculateRoundResults room suspected).2 } }

theorem handleMakeGuess_ok (rooms : Registry) (caller code suspected : String) (room : Room)
    (hroom : alistGet rooms code = some room)
    (hsip : room.gameState.sipahiId = some caller) :
    handleMakeGuess rooms caller code suspected
      = (alistSet rooms code (guessedRoom room suspected), none) := by
  simp [handleMakeGuess, hroom, hsip, guessedRoom]

/-- The conclusion of claim C9: two consecutive `make-guess` calls by the
Sipahi both succeed, stay in the same round and status, and each adds the
full delta again — the final score of each member is the initial score plus
twice the round delta. -/
def RepeatGuessC9 (rooms : Registry) (code suspected s : String) (room : Room) : Prop :=
  let r1 := handleMakeGuess rooms s code suspected
  let r2 := handleMakeGuess r1.1 s code suspected
  r1.2 = none ∧ r2.2 = none ∧
  ∃ room2, alistGet r2.1 code = some room2 ∧
    room2.gameState.status = room.gameState.status ∧
    room2.gameState.currentRound = room.gameState.currentRound ∧
    (∀ p, p ∈ alistKeys room.players →
      alistGet room2.gameState.scores p
        = some ((alistGet room.gameState.scores p).getD 0
            + 2 * (alistGet (calculateRoundResults room suspected).2.pointChanges p).getD 0))

/-- C9: the `make-guess` handler only checks `sipahiId`; nothing marks the
round as resolved, so the Sipahi can resolve the same round repeatedly and
the cumulative scores are incremented by the full set of deltas each time. -/
theorem c9_repeat_guess (rooms : Registry) (code suspected s c : String) (room : Room)
    (hroom : alistGet rooms code = some room)
    (hnd : (alistKeys room.players).Nodup)
    (hkeys : alistKeys room.gameState.characters = alistKeys room.players)
    (hs : room.gameState.sipahiId = some s)
    (hc : room.gameState.chorId = some c)
    (hsM : alistGet room.gameState.characters s = some Role.Sipahi)
    (hcM : alistGet room.gameState.characters c = some Role.Chor) :
    RepeatGuessC9 rooms code suspected s room := by
  classical
  have hfr := calculateRoundResults_frame room suspected
  have hplayers1 : (guessedRoom room suspected).players = room.players := hfr.1
  have hchars1 : (guessedRoom room suspected).gameState.characters
      = room.gameState.characters := hfr.2.2.2.2.2.2.2.1
  have hsi1 : (guessedRoom room suspected).gameState.sipahiId = some s := by
    have : (guessedRoom room suspected).gameState.sipahiId
        = room.gameState.sipahiId := hfr.2.2.2.2.2.2.2.2.1
    rw [this, hs]
  have hco1 : (guessedRoom room suspected).gameState.chorId = some c := by
    have : (guessedRoom room suspected).gameState.chorId
        = room.gameState.chorId := hfr.2.2.2.2.2.2.2.2.2
    rw [this, hc]
  have h1 := handleMakeGuess_ok rooms s code suspected room hroom hs
  have hget1 : alistGet (alistSet rooms code (guessedRoom room suspected)) code
      = some (guessedRoom room suspected) := alistGet_set_self _ _ _
  have h2 := handleMakeGuess_ok (alistSet rooms code (guessedRoom room suspected))
    s code suspected (guessedRoom room suspected) hget1 hsi1
  have hfr2 := calculateRoundResults_frame (guessedRoom room suspected) suspected
  have hpcCongr : (calculateRoundResults (guessedRoom room suspected) suspected).2.pointChanges
      = (calculateRoundResults room suspected).2.pointChanges :=
    calculateRoundResults_pointChanges_congr _ _ suspected hplayers1 hchars1
      hfr.2.2.2.2.2.2.2.2.1 hfr.2.2.2.2.2.2.2.2.2
  have hC2a := c2_round_deltas room suspected s c hnd hkeys hs hc hsM hcM
  have hC2b := c2_round_deltas (guessedRoom room suspected) suspected s c
    (by rw [hplayers1]; exact hnd)
    (by rw [hplayers1, hchars1]; exact hkeys)
    hsi1 hco1
    (by rw [hchars1]; exact hsM)
    (by rw [hchars1]; exact hcM)
  unfold RepeatGuessC9
  simp only [h1, h2]
  refine ⟨trivial, trivial, guessedRoom (guessedRoom room suspected) suspected,
    alistGet_set_self _ _ _, ?_, ?_, ?_⟩
  · have e2 : (guessedRoom (guessedRoom room suspected) suspected).gameState.status
        = (guessedRoom room suspected).gameState.status := hfr2.2.2.2.2.1
    have e1 : (guessedRoom room suspected).gameState.status
        = room.gameState.status := hfr.2.2.2.2.1
    rw [e2, e1]
  · have e2 : (guessedRoom (guessedRoom room suspected) suspected).gameState.currentRound
        = (guessedRoom room suspected).gameState.currentRound := hfr2.2.2.2.2.2.1
    have e1 : (guessedRoom room suspected).gameState.currentRound
        = room.gameState.currentRound := hfr.2.2.2.2.2.1
    rw [e2, e1]
  · intro p hp
    have hp1 : p ∈ alistKeys (guessedRoom room suspected).players := by
      rw [hplayers1]; exact hp
    have hstep2 := hC2b.2.2.2.2.2.2.1 p hp1
    have hstep1 := hC2a.2.2.2.2.2.2.1 p hp
    have hsc2 : (guessedRoom (guessedRoom room suspected) suspected).gameState.scores
        = (calculateRoundResults (guessedRoom room suspected) suspected).1.gameState.scores :=
      rfl
    have hsc1 : (guessedRoom room suspected).gameState.scores
        = (calculateRoundResults room suspected).1.gameState.scores := rfl
    rw [hsc2, hstep2, hsc1, hstep1, hpcCongr]
    simp only [Option.getD_some]
    congr 1
    ring

/-- Witness for `c9_repeat_guess` at a concrete room and registry. -/
theorem c9_witness : RepeatGuessC9 [("R2", roomC2)] "R2" "B" "A" roomC2 :=
  c9_repeat_guess [("R2", roomC2)] "R2" "B" "A" "B" roomC2 (by decide) (by decide)
    (by decide) (by decide) (by decide) (by decide) (by decide)

/-!
## Claim C3 — the `make-guess` guard
-/

/-- C3 (amended): `make-guess` is rejected (with an error to the caller and
the registry unchanged) exactly when the room is missing or the caller's id
differs from the stored `sipahiId`.  The game status is not consulted: any
room whose `sipahiId` equals the caller accepts the guess, whatever its
status. -/
theorem c3_guess_guard (rooms : Registry) (caller code suspected : String) :
    ((handleMakeGuess rooms caller code suspected).2 = none ↔
      ∃ room, alistGet rooms code = some room ∧
        room.gameState.sipahiId = some caller) ∧
    ((handleMakeGuess rooms caller code suspected).2 ≠ none →
      (handleMakeGuess rooms caller code suspected).1 = rooms) := by
  cases h : alistGet rooms code with
  | none => simp [handleMakeGuess, h]
  | some room =>
      by_cases hsip : room.gameState.sipahiId = some caller
      · simp [handleMakeGuess, h, hsip]
      · simp [handleMakeGuess, h, hsip]

/-- A finished-game room whose last-round `sipahiId` still points at `A`. -/
def roomC3 : Room :=
  { roomC2 with gameState := { roomC2.gameState with status := Status.finished } }

/-- C3 counterexample: in a room whose status is `finished` (not `playing`),
the member recorded as `sipahiId` makes a guess; the handler accepts it (no
error) and mutates the room — the claimed rejection of guesses outside
`playing` does not happen. -/
theorem c3_counterexample :
    roomC3.gameState.status = Status.finished ∧
    (handleMakeGuess [("R2", roomC3)] "A" "R2" "B").2 = none ∧
    alistGet (handleMakeGuess [("R2", roomC3)] "A" "R2" "B").1 "R2" ≠ some roomC3 := by
  decide

/-!
## Claim C4 — the `join-room` guard
-/

/-- The conclusion of (amended) claim C4: a join succeeds exactly when the
room exists, is below `maxPlayers`, its status is not `playing` (so
`finished` rooms are joinable too), and the display name is unused; on
failure the registry is untouched, on success the caller is stored as a
member and given a zero score entry. -/
def JoinOutcomeC4 (rooms : Registry) (caller code name avatar : String) : Prop :=
  let r := handleJoinRoom rooms caller code name avatar
  (r.2 = none ↔ ∃ room, alistGet rooms code = some room ∧
      room.players.length < room.settings.maxPlayers ∧
      room.gameState.status ≠ Status.playing ∧
      (∀ e, e ∈ room.players → e.2.name ≠ name)) ∧
  (r.2 ≠ none → r.1 = rooms) ∧
  (∀ room, alistGet rooms code = some room → r.2 = none →
      alistGet r.1 code = some { room with
        players := alistSet room.players caller
          { id := caller, name := name, avatar := avatar, isHost := false, isReady := true },
        gameState :=
          { room.gameState with scores := alistSet room.gameState.scores caller 0 } })

/-- C4 (amended): the join guard checks existence, capacity, `status ≠
playing` and name uniqueness, in that order; `status = waiting` is not
required — a `finished` room can be joined. -/
theorem c4_join_guard (rooms : Registry) (caller code name avatar : String) :
    JoinOutcomeC4 rooms caller code name avatar := by
  classical
  unfold JoinOutcomeC4
  cases h : alistGet rooms code with
  | none =>
      have hres : handleJoinRoom rooms caller code name avatar
          = (rooms, some "Room not found") := by
        simp [handleJoinRoom, h]
      rw [hres]
      refine ⟨⟨(fun hcon => nomatch hcon), ?_⟩, fun _ => rfl, ?_⟩
      · rintro ⟨room, hroom, -⟩
        cases hroom
      · intro room hroom
        cases hroom
  | some room =>
      by_cases hfull : room.players.length ≥ room.settings.maxPlayers
      · have hres : handleJoinRoom rooms caller code name avatar
            = (rooms, some "Room is full") := by
          simp [handleJoinRoom, h, hfull]
        rw [hres]
        refine ⟨⟨(fun hcon => nomatch hcon), ?_⟩, fun _ => rfl, ?_⟩
        · rintro ⟨room', hroom', hlt, -, -⟩
          injection hroom' with hroom'
          subst hroom'
          omega
        · intro room' hroom' hcon
          cases hcon
      · by_cases hplaying : room.gameState.status = Status.playing
        · have hres : handleJoinRoom rooms caller code name avatar
              = (rooms, some "Game already in progress") := by
            simp [handleJoinRoom, h, hfull, hplaying]
          rw [hres]
          refine ⟨⟨(fun hcon => nomatch hcon), ?_⟩, fun _ => rfl, ?_⟩
          · rintro ⟨room', hroom', -, hne, -⟩
            injection hroom' with hroom'
            subst hroom'
            exact absurd hplaying hne
          · intro room' hroom' hcon
            cases hcon
        · by_cases hname : ∃ e, e ∈ room.players ∧ e.2.name = name
          · have hb : (room.players.map Prod.snd).any (fun p => p.name = name) = true := by
              rcases hname with ⟨e, he, hn⟩
              simp only [List.any_eq_true, List.mem_map]
              exact ⟨e.2, ⟨e, he, rfl⟩, by simp [hn]⟩
            have hres : handleJoinRoom rooms caller code name avatar
                = (rooms, some "Name already taken") := by
              simp [handleJoinRoom, h, hfull, hplaying, hb]
            rw [hres]
            refine ⟨⟨(fun hcon => nomatch hcon), ?_⟩, fun _ => rfl, ?_⟩
            · rintro ⟨room', hroom', -, -, hforall⟩
              injection hroom' with hroom'
              subst hroom'
              rcases hname with ⟨e, he, hn⟩
              exact absurd hn (hforall e he)
            · intro room' hroom' hcon
              cases hcon
          · have hb : (room.players.map Prod.snd).any (fun p => p.name = name) = false := by
              rw [Bool.eq_false_iff]
              intro hany
              rcases List.any_eq_true.1 hany with ⟨p, hp, hdec⟩
              rcases List.mem_map.1 hp with ⟨e, he, rfl⟩
              simp only [decide_eq_true_eq] at hdec
              exact hname ⟨e, he, hdec⟩
            have hres : handleJoinRoom rooms caller code name avatar
                = (alistSet rooms code { room with
                    players := alistSet room.players caller
                      { id := caller, name := name, avatar := avatar,
                        isHost := false, isReady := true },
                    gameState := { room.gameState with
                      scores := alistSet room.gameState.scores caller 0 } }, none) := by
              simp [handleJoinRoom, h, hfull, hplaying, hb]
            rw [hres]
            refine ⟨⟨fun _ => ⟨room, rfl, by omega, hplaying,
                fun e he hn => hname ⟨e, he, hn⟩⟩, fun _ => rfl⟩,
              fun hcon => absurd rfl hcon, ?_⟩
            intro room' hroom' _
            injection hroom' with hroom'
            subst hroom'
            exact alistGet_set_self _ _ _

/-- A full (finished) game room with two members. -/
def roomC4 : Room :=
  { roomC1 with gameState := { roomC1.gameState with status := Status.finished } }

/-- C4 counterexample: joining a room whose status is `finished` (not
`waiting`) succeeds — the caller is added — refuting the claimed
"status = waiting" precondition. -/
theorem c4_counterexample :
    roomC4.gameState.status = Status.finished ∧
    (handleJoinRoom [("R1", roomC4)] "E" "R1" "Eve" "").2 = none ∧
    (∃ room, alistGet (handleJoinRoom [("R1", roomC4)] "E" "R1" "Eve" "").1 "R1"
        = some room ∧ "E" ∈ alistKeys room.players) := by
  decide

/-- Witness for `c4_join_guard` at a concrete registry. -/
theorem c4_witness : JoinOutcomeC4 [("R1", roomC1)] "E" "R1" "Eve" "" :=
  c4_join_guard [("R1", roomC1)] "E" "R1" "Eve" ""

/-!
## Claim C5 — scores keys vs. membership
-/

/-- The invariant of claim C5 for a single room: every key of the cumulative
scores mapping is a current member id. -/
def ScoresSubsetInv (room : Room) : Prop :=
  ∀ k, k ∈ alistKeys room.gameState.scores → k ∈ alistKeys room.players

theorem foldl_set_zero_keys (ids : List String) :
    ∀ (sc : List (String × Int)) (x : String),
      x ∈ alistKeys (ids.foldl (fun sc pid => alistSet sc pid 0) sc) →
      x ∈ alistKeys sc ∨ x ∈ ids := by
  induction ids with
  | nil => intro sc x h; exact Or.inl h
  | cons q rest ih =>
      intro sc x h
      rcases ih (alistSet sc q 0) x h with hh | hh
      · rcases (mem_alistKeys_set sc q x 0).1 hh with hm | hm
        · exact Or.inl hm
        · exact Or.inr (by simp [hm])
      · exact Or.inr (List.mem_cons_of_mem q hh)

/-- C5 (amended): the subset invariant is established by `createRoom` and
preserved by `join-room`, `start-game`, `next-round` and `disconnect`
unconditionally; a `make-guess` preserves it provided `sipahiId`, `chorId`
and every key of the character map refer to current members (which fails
after a mid-round disconnect — see the counterexample). -/
theorem c5_scores_subset :
    (∀ (rooms : Registry) (hostId : String) (hostData : HostData)
        (gen : Nat → String) (fuel : Nat) (rooms' : Registry) (room : Room),
      createRoom rooms hostId hostData gen fuel = some (rooms', room) →
      ScoresSubsetInv room) ∧
    (∀ (rooms : Registry) (caller code name avatar : String) (room room' : Room),
      alistGet rooms code = some room → ScoresSubsetInv room →
      alistGet (handleJoinRoom rooms caller code name avatar).1 code = some room' →
      ScoresSubsetInv room') ∧
    (∀ (rooms : Registry) (caller code : String) (dataRounds : Option Nat)
        (rand : Nat → Nat) (room room' : Room),
      alistGet rooms code = some room → ScoresSubsetInv room →
      alistGet (handleStartGame rooms caller code dataRounds rand).1 code = some room' →
      ScoresSubsetInv room') ∧
    (∀ (rooms : Registry) (caller code suspected s c : String) (room room' : Room),
      alistGet rooms code = some room → ScoresSubsetInv room →
      room.gameState.sipahiId = some s → s ∈ alistKeys room.players →
      room.gameState.chorId = some c → c ∈ alistKeys room.players →
      (∀ k, k ∈ alistKeys room.gameState.characters → k ∈ alistKeys room.players) →
      alistGet (handleMakeGuess rooms caller code suspected).1 code = some room' →
      ScoresSubsetInv room') ∧
    (∀ (rooms : Registry) (caller code : String) (rand : Nat → Nat) (room room' : Room),
      alistGet rooms code = some room → ScoresSubsetInv room →
      alistGet (handleNextRound rooms caller code rand).1 code = some room' →
      ScoresSubsetInv room') ∧
    (∀ (rooms : Registry) (prc : Option String) (pid code : String) (room room' : Room),
      alistGet rooms code = some room → ScoresSubsetInv room →
      alistGet (handleDisconnect rooms prc pid) code = some room' →
      ScoresSubsetInv room') := by
  classical
  refine ⟨?_, ?_, ?_, ?_, ?_, ?_⟩
  · -- createRoom
    intro rooms hostId hostData gen fuel rooms' room h
    unfold createRoom at h
    cases hfc : findFreeCode rooms gen 0 fuel with
    | none => rw [hfc] at h; cases h
    | some codeV =>
        rw [hfc] at h
        injection h with h
        have hroom := congrArg Prod.snd h
        simp only at hroom
        subst hroom
        intro k hk
        simpa [alistKeys] using hk
  · -- join-room
    intro rooms caller code name avatar room room' hroom hinv hres'
    by_cases herr : (handleJoinRoom rooms caller code name avatar).2 = none
    · have hstored := (c4_join_guard rooms caller code name avatar).2.2 room hroom herr
      rw [hstored] at hres'
      injection hres' with hres'
      subst hres'
      intro k hk
      simp only at hk ⊢
      rcases (mem_alistKeys_set room.gameState.scores caller k 0).1 hk with hm | hm
      · exact (mem_alistKeys_set room.players caller k _).2 (Or.inl (hinv k hm))
      · exact (mem_alistKeys_set room.players caller k _).2 (Or.inr hm)
    · have hunch := (c4_join_guard rooms caller code name avatar).2.1 herr
      rw [hunch, hroom] at hres'
      injection hres' with hres'
      subst hres'
      exact hinv
  · -- start-game
    intro rooms caller code dataRounds rand room room' hroom hinv hres'
    by_cases hhost : room.hostId ≠ caller
    · have hres : (handleStartGame rooms caller code dataRounds rand).1 = rooms := by
        simp [handleStartGame, hroom, hhost]
      rw [hres, hroom] at hres'
      injection hres' with hres'
      subst hres'
      exact hinv
    · rw [not_not] at hhost
      by_cases hlen : room.players.length < 2
      · have hres : (handleStartGame rooms caller code dataRounds rand).1 = rooms := by
          simp [handleStartGame, hroom, hhost, hlen]
        rw [hres, hroom] at hres'
        injection hres' with hres'
        subst hres'
        exact hinv
      · have hres : handleStartGame rooms caller code dataRounds rand
            = (alistSet rooms code (assignCharacters rand { room with gameState :=
                { room.gameState with
                  totalRounds := jsOrNat dataRounds room.settings.rounds,
                  status := Status.playing,
                  currentRound := 1,
                  scores := (alistKeys room.players).foldl
                    (fun sc pid => alistSet sc pid 0) room.gameState.scores } }), none) := by
          simp [handleStartGame, hroom, hhost, hlen]
        rw [hres] at hres'
        simp only [alistGet_set_self, Option.some.injEq] at hres'
        subst hres'
        intro k hk
        have hsc : (assignCharacters rand { room with gameState :=
            { room.gameState with
              totalRounds := jsOrNat dataRounds room.settings.rounds,
              status := Status.playing,
              currentRound := 1,
              scores := (alistKeys room.players).foldl
                (fun sc pid => alistSet sc pid 0) room.gameState.scores } }).gameState.scores
            = (alistKeys room.players).foldl
                (fun sc pid => alistSet sc pid 0) room.gameState.scores :=
          (assignLoop_frame _ _ _ _).2.2.2.1
        rw [hsc] at hk
        rcases foldl_set_zero_keys (alistKeys room.players) room.gameState.scores k hk
          with hm | hm
        · exact hinv k hm
        · exact hm
  · -- make-guess
    intro rooms caller code suspected s c room room' hroom hinv hs hsmem hc hcmem hchars hres'
    by_cases hsip : room.gameState.sipahiId = some caller
    · have hok := handleMakeGuess_ok rooms caller code suspected room hroom hsip
      rw [hok] at hres'
      simp only [alistGet_set_self, Option.some.injEq] at hres'
      subst hres'
      have hcalc := calculateRoundResults_eq room suspected s c hs hc
      intro k hk
      have hscG : (guessedRoom room suspected).gameState.scores
          = (calculateRoundResults room suspected).1.gameState.scores := rfl
      have hplG : (guessedRoom room suspected).players = room.players :=
        (calculateRoundResults_frame room suspected).1
      rw [hplG]
      rw [hscG, hcalc] at hk
      simp only at hk
      rcases applyPointChanges_keys_subset _ _ _ hk with hm | hm
      · exact hinv k hm
      · rcases rajaMantriPass_keys_subset _ _ _ hm with hm2 | hm2
        · have hpc0 : alistKeys ((alistKeys room.players).map (fun pid => (pid, (0 : Int))))
              = alistKeys room.players := alistKeys_map_const _ 0
          rcases (by
            split_ifs at hm2 with hcorr
            · rcases (mem_alistKeys_set _ c k _).1 hm2 with hm3 | hm3
              · rcases (mem_alistKeys_set _ s k _).1 hm3 with hm4 | hm4
                · exact Or.inl (hpc0 ▸ hm4)
                · exact Or.inr (Or.inl hm4)
              · exact Or.inr (Or.inr hm3)
            · rcases (mem_alistKeys_set _ c k _).1 hm2 with hm3 | hm3
              · rcases (mem_alistKeys_set _ s k _).1 hm3 with hm4 | hm4
                · exact Or.inl (hpc0 ▸ hm4)
                · exact Or.inr (Or.inl hm4)
              · exact Or.inr (Or.inr hm3) :
            k ∈ alistKeys room.players ∨ k = s ∨ k = c) with hm3 | hm3 | hm3
          · exact hm3
          · exact hm3 ▸ hsmem
          · exact hm3 ▸ hcmem
        · exact hchars k hm2
    · have hres : (handleMakeGuess rooms caller code suspected).1 = rooms := by
        simp [handleMakeGuess, hroom, hsip]
      rw [hres, hroom] at hres'
      injection hres' with hres'
      subst hres'
      exact hinv
  · -- next-round
    intro rooms caller code rand room room' hroom hinv hres'
    by_cases hhost : room.hostId ≠ caller
    · have hres : (handleNextRound rooms caller code rand).1 = rooms := by
        simp [handleNextRound, hroom, hhost]
      rw [hres, hroom] at hres'
      injection hres' with hres'
      subst hres'
      exact hinv
    · rw [not_not] at hhost
      by_cases hfin : room.gameState.currentRound + 1 > room.gameState.totalRounds
      · have hres : (handleNextRound rooms caller code rand).1
            = alistSet rooms code { room with gameState :=
                { room.gameState with
                  currentRound := room.gameState.currentRound + 1,
                  status := Status.finished } } := by
          simp [handleNextRound, hroom, hhost, hfin]
        rw [hres] at hres'
        simp only [alistGet_set_self, Option.some.injEq] at hres'
        subst hres'
        exact hinv
      · have hres : (handleNextRound rooms caller code rand).1
            = alistSet rooms code (assignCharacters rand { room with gameState :=
                { room.gameState with
                  currentRound := room.gameState.currentRound + 1 } }) := by
          simp [handleNextRound, hroom, hhost, hfin]
        rw [hres] at hres'
        simp only [alistGet_set_self, Option.some.injEq] at hres'
        subst hres'
        intro k hk
        have hsc : (assignCharacters rand { room with gameState :=
            { room.gameState with
              currentRound := room.gameState.currentRound + 1 } }).gameState.scores
            = room.gameState.scores := (assignLoop_frame _ _ _ _).2.2.2.1
        rw [hsc] at hk
        exact hinv k hk
  · -- disconnect
    intro rooms prc pid code room room' hroom hinv hres'
    cases prc with
    | none =>
        simp only [handleDisconnect] at hres'
        rw [hroom] at hres'
        injection hres' with hres'
        subst hres'
        exact hinv
    | some dcode =>
        simp only [handleDisconnect] at hres'
        cases hd : alistGet rooms dcode with
        | none =>
            simp only [hd] at hres'
            rw [hroom] at hres'
            injection hres' with hres'
            subst hres'
            exact hinv
        | some droom =>
            simp only [hd] at hres'
            by_cases hcd : code = dcode
            · subst hcd
              rw [hroom] at hd
              injection hd with hd
              subst hd
              by_cases hhost : room.hostId = pid
              · rw [if_pos hhost] at hres'
                cases hpl : alistRemove room.players pid with
                | nil =>
                    rw [hpl] at hres'
                    rw [alistGet_remove_self] at hres'
                    cases hres'
                | cons e rest =>
                    rw [hpl] at hres'
                    rw [alistGet_set_self] at hres'
                    injection hres' with hres'
                    subst hres'
                    intro k hk
                    simp only at hk ⊢
                    have hk2 : k ∈ alistKeys room.gameState.scores ∧ k ≠ pid :=
                      (mem_alistKeys_remove _ _ _).1 hk
                    have hk3 : k ∈ alistKeys (alistRemove room.players pid) :=
                      (mem_alistKeys_remove _ _ _).2 ⟨hinv k hk2.1, hk2.2⟩
                    rw [hpl] at hk3
                    exact (mem_alistKeys_set _ _ _ _).2 (Or.inl hk3)
              · rw [if_neg hhost] at hres'
                rw [alistGet_set_self] at hres'
                injection hres' with hres'
                subst hres'
                intro k hk
                simp only at hk ⊢
                have hk2 : k ∈ alistKeys room.gameState.scores ∧ k ≠ pid :=
                  (mem_alistKeys_remove _ _ _).1 hk
                exact (mem_alistKeys_remove _ _ _).2 ⟨hinv k hk2.1, hk2.2⟩
            · have hget : ∀ r : Room,
                  alistGet (alistSet rooms dcode r) code = alistGet rooms code :=
                fun r => alistGet_set_ne rooms dcode code r hcd
              by_cases hhost : droom.hostId = pid
              · rw [if_pos hhost] at hres'
                cases hpl : alistRemove droom.players pid with
                | nil =>
                    rw [hpl] at hres'
                    rw [alistGet_remove_ne rooms dcode code hcd, hroom] at hres'
                    injection hres' with hres'
                    subst hres'
                    exact hinv
                | cons e rest =>
                    rw [hpl] at hres'
                    rw [hget, hroom] at hres'
                    injection hres' with hres'
                    subst hres'
                    exact hinv
              · rw [if_neg hhost] at hres'
                rw [hget, hroom] at hres'
                injection hres' with hres'
                subst hres'
                exact hinv

/-- Code generator for the counterexample chain: always proposes `R1`. -/
def c5gen : Nat → String := fun _ => "R1"

/-- Shuffle draws for the counterexample chain: produces
`[Sipahi, Chor, Mantri, Raja]`, so in a 2-member room `A` is Sipahi and `B`
is Chor. -/
def c5rand : Nat → Nat := fun i => if i = 3 then 0 else 1

/-- Registry after `A` creates a room. -/
def c5reg1 : Registry :=
  ((createRoom [] "A" { name := "Alice", avatar := "", rounds := none } c5gen 1).map
    Prod.fst).getD []

/-- ... after `B` joins. -/
def c5reg2 : Registry := (handleJoinRoom c5reg1 "B" "R1" "Bob" "").1

/-- ... after `A` starts the game (`A` Sipahi, `B` Chor). -/
def c5reg3 : Registry := (handleStartGame c5reg2 "A" "R1" none c5rand).1

/-- ... after `B` disconnects mid-round. -/
def c5reg4 : Registry := handleDisconnect c5reg3 (some "R1") "B"

/-- ... after `A` (still Sipahi) guesses `B`. -/
def c5reg5 : Registry := (handleMakeGuess c5reg4 "A" "R1" "B").1

/-- C5 counterexample: the full operation chain create → join → start →
disconnect(B) → guess runs without a single error, yet after the guess the
departed `B` is back in the scores mapping while no longer a member — the
scores key set is not a subset of the membership. -/
theorem c5_counterexample :
    (handleJoinRoom c5reg1 "B" "R1" "Bob" "").2 = none ∧
    (handleStartGame c5reg2 "A" "R1" none c5rand).2 = none ∧
    (handleMakeGuess c5reg4 "A" "R1" "B").2 = none ∧
    (∃ room, alistGet c5reg5 "R1" = some room ∧
      "B" ∈ alistKeys room.gameState.scores ∧ "B" ∉ alistKeys room.players) := by
  decide

/-- A 2-member waiting room for the C5 witness. -/
def roomC5a : Room :=
  { roomC1 with gameState := { roomC1.gameState with status := Status.waiting } }

/-- The room stored after `E` joins `roomC5a`. -/
def roomC5a' : Room :=
  { roomC5a with
    players := alistSet roomC5a.players "E"
      { id := "E", name := "Eve", avatar := "", isHost := false, isReady := true },
    gameState :=
      { roomC5a.gameState with scores := alistSet roomC5a.gameState.scores "E" 0 } }

/-- Witness for `c5_scores_subset` (join conjunct) at a concrete room. -/
theorem c5_witness : ScoresSubsetInv roomC5a' :=
  c5_scores_subset.2.1 [("R1", roomC5a)] "E" "R1" "Eve" "" roomC5a roomC5a'
    (by decide)
    (fun k hk => by
      simp only [roomC5a, roomC1, alistKeys, List.map_cons, List.map_nil] at hk ⊢
      exact hk)
    (by decide)

/-!
## Claim C6 — round advance and winner computation
-/

/-- Head of the stable descending insertion: the inserted element wins the
head exactly when its score is ≥ the current head's. -/
theorem insertScoreDesc_cons (x y : Player × Int) (ys : List (Player × Int)) :
    insertScoreDesc x (y :: ys)
      = if x.2 ≥ y.2 then x :: y :: ys else y :: insertScoreDesc x ys := rfl

/-- The head of the stable descending sort is the first-encountered maximum:
it splits the input as `l1 ++ w :: l2` with every earlier element strictly
smaller and every element at most `w`'s score. -/
theorem sortByScoreDesc_head :
    ∀ (l : List (Player × Int)), l ≠ [] →
      ∃ w l1 l2, (sortByScoreDesc l).head? = some w ∧ l = l1 ++ w :: l2 ∧
        (∀ a, a ∈ l1 → a.2 < w.2) ∧ (∀ a, a ∈ l → a.2 ≤ w.2)
  | [], h => absurd rfl h
  | [x], _ => by
      refine ⟨x, [], [], ?_, rfl, by simp, ?_⟩
      · simp [sortByScoreDesc, insertScoreDesc]
      · intro a ha
        simp only [List.mem_singleton] at ha
        subst ha
        exact le_refl _
  | x :: y :: ys, _ => by
      rcases sortByScoreDesc_head (y :: ys) (by simp) with ⟨w, l1, l2, hhead, hsplit, hlt, hle⟩
      have hsorted : sortByScoreDesc (x :: y :: ys)
          = insertScoreDesc x (sortByScoreDesc (y :: ys)) := rfl
      cases hS : sortByScoreDesc (y :: ys) with
      | nil => rw [hS] at hhead; cases hhead
      | cons w0 t =>
          rw [hS] at hhead
          simp only [List.head?, Option.some.injEq] at hhead
          rw [hhead] at hS
          by_cases hge : x.2 ≥ w.2
          · refine ⟨x, [], y :: ys, ?_, rfl, by simp, ?_⟩
            · rw [hsorted, hS, insertScoreDesc_cons, if_pos hge]
              rfl
            · intro a ha
              rcases List.mem_cons.1 ha with hh | hh
              · subst hh
                exact le_refl _
              · exact le_trans (hle a hh) hge
          · refine ⟨w, x :: l1, l2, ?_, by rw [hsplit]; rfl, ?_, ?_⟩
            · rw [hsorted, hS, insertScoreDesc_cons, if_neg hge]
              rfl
            · intro a ha
              rcases List.mem_cons.1 ha with hh | hh
              · subst hh
                omega
              · exact hlt a hh
            · intro a ha
              rcases List.mem_cons.1 ha with hh | hh
              · subst hh
                omega
              · exact hle a hh

/-- The conclusion of claim C6 for a host-triggered `next-round` on a playing
room: past the last round the room finishes and the emitted winner is the
first-encountered member with the maximum cumulative score; otherwise the
room stays playing with freshly reassigned roles. -/
def NextRoundC6 (rooms : Registry) (caller code : String) (rand : Nat → Nat)
    (room : Room) : Prop :=
  let r := handleNextRound rooms caller code rand
  (room.gameState.currentRound + 1 > room.gameState.totalRounds →
    r.2.1 = none ∧
    (∃ room', alistGet r.1 code = some room' ∧
      room'.gameState.status = Status.finished ∧
      room'.gameState.currentRound = room.gameState.currentRound + 1 ∧
      room'.players = room.players ∧
      room'.gameState.scores = room.gameState.scores) ∧
    (room.players ≠ [] →
      ∃ w l1 l2, r.2.2 = some w ∧
        room.players.map (fun e => (e.2, (alistGet room.gameState.scores e.1).getD 0))
          = l1 ++ w :: l2 ∧
        (∀ a, a ∈ l1 → a.2 < w.2) ∧
        (∀ a, a ∈ l1 ++ w :: l2 → a.2 ≤ w.2))) ∧
  (¬ room.gameState.currentRound + 1 > room.gameState.totalRounds →
    r.2.1 = none ∧ r.2.2 = none ∧
    alistGet r.1 code = some (assignCharacters rand { room with gameState :=
      { room.gameState with currentRound := room.gameState.currentRound + 1 } }) ∧
    (assignCharacters rand { room with gameState :=
      { room.gameState with currentRound := room.gameState.currentRound + 1 } }
        ).gameState.status = Status.playing)

/-- C6: a host-triggered `next-round` on a playing room increments the round
counter; past `totalRounds` it finishes the game and emits as winner the
member with the maximum cumulative score, ties resolved to the member first
in membership order (the ECMAScript sort is stable); otherwise the room
stays `playing` and roles are reassigned. -/
theorem c6_next_round (rooms : Registry) (caller code : String) (rand : Nat → Nat)
    (room : Room)
    (hroom : alistGet rooms code = some room)
    (hhost : room.hostId = caller)
    (hst : room.gameState.status = Status.playing) :
    NextRoundC6 rooms caller code rand room := by
  classical
  unfold NextRoundC6
  constructor
  · intro hfin
    have hres : handleNextRound rooms caller code rand
        = (alistSet rooms code { room with gameState :=
            { room.gameState with
              currentRound := room.gameState.currentRound + 1,
              status := Status.finished } }, none,
           (sortByScoreDesc (room.players.map
             (fun e => (e.2, (alistGet room.gameState.scores e.1).getD 0)))).head?) := by
      simp [handleNextRound, hroom, hhost, hfin]
    rw [hres]
    refine ⟨rfl, ⟨_, alistGet_set_self _ _ _, rfl, rfl, rfl, rfl⟩, ?_⟩
    intro hne
    have hne2 : room.players.map
        (fun e => (e.2, (alistGet room.gameState.scores e.1).getD 0)) ≠ [] := by
      simpa using hne
    rcases sortByScoreDesc_head _ hne2 with ⟨w, l1, l2, hhead, hsplit, hlt, hle⟩
    refine ⟨w, l1, l2, hhead, hsplit, hlt, ?_⟩
    intro a ha
    exact hle a (hsplit ▸ ha)
  · intro hfin
    have hres : handleNextRound rooms caller code rand
        = (alistSet rooms code (assignCharacters rand { room with gameState :=
            { room.gameState with
              currentRound := room.gameState.currentRound + 1 } }), none, none) := by
      simp [handleNextRound, hroom, hhost, hfin]
    rw [hres]
    refine ⟨rfl, rfl, alistGet_set_self _ _ _, ?_⟩
    have hstat := (assignLoop_frame (shuffleArray rand roleList)
        (alistKeys room.players) 0
        { room.gameState with currentRound := room.gameState.currentRound + 1 }).1
    exact hstat.trans hst

/-- A last-round playing room with distinct cumulative scores. -/
def roomC6 : Room :=
  { roomC2 with
    gameState :=
      { roomC2.gameState with
        currentRound := 5, totalRounds := 5,
        scores := [("A", 700), ("B", 0), ("C", 2000), ("D", 900)] } }

/-- Witness for `c6_next_round` at a concrete final round. -/
theorem c6_witness : NextRoundC6 [("R2", roomC6)] "A" "R2" (fun i => i) roomC6 :=
  c6_next_round [("R2", roomC6)] "A" "R2" (fun i => i) roomC6
    (by decide) (by decide) (by decide)

/-!
## Claim C7 — disconnect, host hand-off and room teardown
-/

/-- The conclusion of claim C7 for a disconnect of `pid` from the room under
`code`: a sole member's departure deletes the room; a departing host with
members remaining hands the host flag to the first remaining member; and
whenever the room survives, its `hostId` is a current member. -/
def DisconnectC7 (rooms : Registry) (code pid : String) (room : Room) : Prop :=
  let r := handleDisconnect rooms (some code) pid
  (alistKeys room.players = [pid] → alistGet r code = none) ∧
  (room.hostId = pid → ∀ e rest, alistRemove room.players pid = e :: rest →
    ∃ room', alistGet r code = some room' ∧ room'.hostId = e.1 ∧
      room'.hostId ∈ alistKeys room'.players) ∧
  (∀ room', alistGet r code = some room' → room'.hostId ∈ alistKeys room'.players)

/-- C7: disconnecting the sole member removes the room from the registry;
disconnecting the host with others remaining promotes exactly the first
remaining member; in every surviving room the host id refers to a current
member. -/
theorem c7_disconnect (rooms : Registry) (code pid : String) (room : Room)
    (hroom : alistGet rooms code = some room)
    (hhostmem : room.hostId ∈ alistKeys room.players) :
    DisconnectC7 rooms code pid room := by
  classical
  unfold DisconnectC7
  have hred : handleDisconnect rooms (some code) pid
      = (if room.hostId = pid then
           match alistRemove room.players pid with
           | [] => alistRemove rooms code
           | (newHostId, p) :: _ =>
               alistSet rooms code
                 { code := room.code
                   hostId := newHostId
                   players := alistSet (alistRemove room.players pid) newHostId
                     { p with isHost := true }
                   gameState := { room.gameState with
                     scores := alistRemove room.gameState.scores pid }
                   settings := room.settings }
         else alistSet rooms code
           { room with
             players := alistRemove room.players pid
             gameState := { room.gameState with
               scores := alistRemove room.gameState.scores pid } }) := by
    simp only [handleDisconnect, hroom]
  refine ⟨?_, ?_, ?_⟩
  · intro hsole
    have hpl : ∃ p, room.players = [(pid, p)] := by
      cases hp : room.players with
      | nil => rw [hp] at hsole; cases hsole
      | cons e rest =>
          rw [hp] at hsole
          simp only [alistKeys, List.map_cons] at hsole
          injection hsole with h1 h2
          cases hrest : rest with
          | nil =>
              refine ⟨e.2, ?_⟩
              rcases e with ⟨k, q⟩
              simp only at h1
              simp [h1]
          | cons f rest2 =>
              rw [hrest] at h2
              cases h2
    rcases hpl with ⟨p, hp⟩
    have hhost : room.hostId = pid := by
      rw [hp] at hhostmem
      simpa [alistKeys] using hhostmem
    have hrem : alistRemove room.players pid = [] := by
      rw [hp, alistRemove_cons]
      simp [alistRemove]
    rw [hred]
    simp only [hrem, hhost, if_pos rfl]
    exact alistGet_remove_self rooms code
  · intro hhost e rest hrem
    rw [hred]
    simp only [hrem, hhost, if_pos rfl]
    rcases e with ⟨newHostId, p⟩
    refine ⟨_, alistGet_set_self _ _ _, rfl, ?_⟩
    simp only
    exact (mem_alistKeys_set _ _ _ _).2 (Or.inr rfl)
  · intro room' hroom'
    rw [hred] at hroom'
    by_cases hhost : room.hostId = pid
    · simp only [hhost, if_pos rfl] at hroom'
      cases hrem : alistRemove room.players pid with
      | nil =>
          simp only [hrem, if_true] at hroom'
          rw [alistGet_remove_self] at hroom'
          cases hroom'
      | cons e rest =>
          simp only [hrem, if_true] at hroom'
          rcases e with ⟨newHostId, p⟩
          rw [alistGet_set_self] at hroom'
          injection hroom' with hroom'
          subst hroom'
          simp only
          exact (mem_alistKeys_set _ _ _ _).2 (Or.inr rfl)
    · simp only [hhost, if_neg hhost, if_false] at hroom'
      rw [alistGet_set_self] at hroom'

      injection hroom' with hroom'
      subst hroom'
      simp only
      exact (mem_alistKeys_remove _ _ _).2 ⟨hhostmem, hhost⟩

/-- Witness for `c7_disconnect`: the host of a 2-member room disconnects. -/
theorem c7_witness : DisconnectC7 [("R1", roomC1)] "R1" "A" roomC1 :=
  c7_disconnect [("R1", roomC1)] "R1" "A" roomC1 (by decide) (by decide)

/-!
## Claim C8 — room-code uniqueness
-/

theorem findFreeCode_free (rooms : Registry) (gen : Nat → String) :
    ∀ (fuel i : Nat) (c : String), findFreeCode rooms gen i fuel = some c →
      alistGet rooms c = none
  | 0, _, _, h => by cases h
  | fuel + 1, i, c, h => by
      unfold findFreeCode at h
      by_cases hs : (alistGet rooms (gen i)).isSome
      · rw [if_pos hs] at h
        exact findFreeCode_free rooms gen fuel (i + 1) c h
      · rw [if_neg hs] at h
        injection h with h
        subst h
        exact Option.not_isSome_iff_eq_none.1 hs

/-- C8: when the code search of `createRoom` terminates, the chosen room
code has no entry in the registry at the moment of registration, the new
room is registered under it, and registry keys stay duplicate-free — no two
live rooms share a code. -/
theorem c8_fresh_code (rooms : Registry) (hostId : String) (hostData : HostData)
    (gen : Nat → String) (fuel : Nat) (rooms' : Registry) (room : Room)
    (h : createRoom rooms hostId hostData gen fuel = some (rooms', room)) :
    alistGet rooms room.code = none ∧
    alistGet rooms' room.code = some room ∧
    ((alistKeys rooms).Nodup → (alistKeys rooms').Nodup) := by
  unfold createRoom at h
  cases hfc : findFreeCode rooms gen 0 fuel with
  | none => rw [hfc] at h; cases h
  | some codeV =>
      rw [hfc] at h
      injection h with h
      have hrooms' := congrArg Prod.fst h
      have hroom := congrArg Prod.snd h
      simp only at hrooms' hroom
      subst hrooms'
      subst hroom
      have hfree := findFreeCode_free rooms gen fuel 0 codeV hfc
      exact ⟨hfree, alistGet_set_self _ _ _, fun hnd => alistKeys_set_nodup _ _ _ hnd⟩

/-- A registry already holding code `R1`, and a generator that proposes `R1`
first and `R2` second: the collision forces a re-sample. -/
def c8rooms : Registry := [("R1", roomC1)]

def c8gen : Nat → String := fun n => if n = 0 then "R1" else "R2"

def c8res : Option (Registry × Room) :=
  createRoom c8rooms "H" { name := "Hal", avatar := "", rounds := none } c8gen 2

def c8room : Room := (c8res.map Prod.snd).getD roomC1

def c8registry : Registry := (c8res.map Prod.fst).getD []

/-- Witness for `c8_fresh_code` at a concrete collision-then-resample run. -/
theorem c8_witness :
    alistGet c8rooms c8room.code = none ∧
    alistGet c8registry c8room.code = some c8room ∧
    ((alistKeys c8rooms).Nodup → (alistKeys c8registry).Nodup) :=
  c8_fresh_code c8rooms "H" { name := "Hal", avatar := "", rounds := none } c8gen 2
    c8registry c8room (by decide)
